import Mathlib

/-!
Verification of the qrouter LEF/DEF reader core (src/lef.c, src/def.c)
against its natural-language specification.

The development shallowly embeds the relevant C functions as executable
Lean definitions over exact rational arithmetic (the C code uses `double`
only for comparisons and affine arithmetic in the fragments modelled here,
so `ℚ` is a faithful carrier), and proves or refutes the specified
properties about them.  Linked lists become `List`s; global mutable state
becomes explicit state records; `qsort` (whose tie order is unspecified)
becomes a stable insertion sort, a legitimate refinement of the C
behaviour.
-/

set_option maxHeartbeats 1000000

namespace QRouter

/-- A point of a POLYGON statement (`struct dpoint_` in lef.c):
coordinates in microns plus a layer index. -/
structure DPoint where
  x : ℚ
  y : ℚ
  layer : ℤ
deriving DecidableEq, Repr

/-- A rectangle (`struct dseg_` in lef.c): two corners plus a layer index. -/
structure DSeg where
  x1 : ℚ
  y1 : ℚ
  x2 : ℚ
  y2 : ℚ
  layer : ℤ
deriving DecidableEq, Repr

/-- Edge direction constants from lef.c (`HEDGE`, `REDGE`, `FEDGE`). -/
def HEDGE : ℤ := 0

/-- Rising edge constant. -/
def REDGE : ℤ := 1

/-- Falling edge constant. -/
def FEDGE : ℤ := -1

/-- An edge of the polygon: a point together with its successor in the
(closed) point list. -/
abbrev PolyEdge := DPoint × DPoint

/-- `lefOrient`, per edge: horizontal if the two y coordinates agree,
rising/falling if the two x coordinates agree, `none` when the edge is
non-Manhattan (in which case the C routine fails and the caller gives up). -/
def lefOrientEdge (e : PolyEdge) : Option ℤ :=
  if e.1.y = e.2.y then some HEDGE
  else if e.1.x = e.2.x then
    (if e.1.y < e.2.y then some REDGE else some FEDGE)
  else none

/-- The direction actually assigned to a Manhattan edge (the value
`lefOrientEdge` returns whenever it succeeds). -/
def edgeDir (e : PolyEdge) : ℤ :=
  if e.1.y = e.2.y then HEDGE
  else if e.1.y < e.2.y then REDGE else FEDGE

/-- `lefCross` from lef.c: a rising or falling edge crosses the y-range
`[ybot, ytop]` iff its own y-span contains that range; horizontal edges
never cross. -/
def lefCross (e : PolyEdge) (dir : ℤ) (ybot ytop : ℚ) : Bool :=
  if dir = REDGE then decide (e.1.y ≤ ybot ∧ ytop ≤ e.2.y)
  else if dir = FEDGE then decide (e.2.y ≤ ybot ∧ ytop ≤ e.1.y)
  else false

/-- The wrap-number increment of a crossing edge (`+1` on REDGE, `-1`
otherwise; the C code only adds it for edges that satisfy `lefCross`). -/
def edgeSign (dir : ℤ) : ℤ := if dir = REDGE then 1 else -1

/-- Close the path by duplicating the first point if the tail point differs
from it (start of `LefPolygonToRects`).  The duplicate copies the head's
x, y and layer, hence equals the head. -/
def closePath (pl : List DPoint) : List DPoint :=
  match pl with
  | [] => []
  | p :: rest =>
    let t := (p :: rest).getLast (by simp)
    if t.x = p.x ∧ t.y = p.y then p :: rest
    else (p :: rest) ++ [⟨p.x, p.y, p.layer⟩]

/-- The edges of a closed point list: each point paired with its successor. -/
def polyEdges (closed : List DPoint) : List PolyEdge :=
  closed.zip closed.tail

/-- Inner loop of `LefPolygonToRects` for one minimal y-range
`(ybot, ytop)`: scan the x-sorted edges accumulating the signed wrap
number; whenever the wrap number leaves zero remember the current x, and
whenever it returns to zero emit a rectangle (skipping zero-width spans). -/
def lefScanSpan (ybot ytop : ℚ) : ℤ → ℚ → List PolyEdge → List DSeg
  | _, _, [] => []
  | wrapno, xbot, e :: rest =>
    let xb := if wrapno = 0 then e.1.x else xbot
    if lefCross e (edgeDir e) ybot ytop then
      (if wrapno + edgeSign (edgeDir e) = 0 then
        (if xb = e.1.x then lefScanSpan ybot ytop (wrapno + edgeSign (edgeDir e)) xb rest
         else ⟨xb, ybot, e.1.x, ytop, e.1.layer⟩ ::
              lefScanSpan ybot ytop (wrapno + edgeSign (edgeDir e)) xb rest)
       else lefScanSpan ybot ytop (wrapno + edgeSign (edgeDir e)) xb rest)
    else lefScanSpan ybot ytop wrapno xb rest

/-- Comparison used to sort edges by low x (`lefLowX` under `qsort`). -/
def lowX (u v : PolyEdge) : Prop := u.1.x ≤ v.1.x

instance : DecidableRel lowX := fun u v => inferInstanceAs (Decidable (u.1.x ≤ v.1.x))

/-- The edges of a point list after closing it. -/
def edgesOf (pl : List DPoint) : List PolyEdge :=
  polyEdges (closePath pl)

/-- The edges sorted by low x (`qsort(edges, lefLowX)`; `qsort`'s tie
order is unspecified, rendered by a stable insertion sort). -/
def sortedEdgesOf (pl : List DPoint) : List PolyEdge :=
  (edgesOf pl).insertionSort lowX

/-- The distinct vertex y values in ascending order: the point array
sorted by low y (`qsort(pts, lefLowY)`), with duplicates removed as the
span loop's inner `while` does. -/
def spanYs (pl : List DPoint) : List ℚ :=
  (((edgesOf pl).map fun e => e.1.y).insertionSort (· ≤ ·)).dedup

/-- `LefPolygonToRects` from lef.c: close the path, reject short or
non-Manhattan polygons, sort vertices by low y and edges by low x, and run
the wrap-number scan over every minimal y-range (each pair of adjacent
distinct sorted vertex y values).  The C routine head-inserts rectangles,
so its list is the reverse of this one; all claims below are about
membership, which is unaffected. -/
def LefPolygonToRects (pointlist : List DPoint) : List DSeg :=
  match pointlist with
  | [] => []
  | _ :: _ =>
    if (edgesOf pointlist).length < 4 then []
    else if (edgesOf pointlist).all (fun e => (lefOrientEdge e).isSome) then
      ((spanYs pointlist).zip (spanYs pointlist).tail).flatMap
        fun ab => lefScanSpan ab.1 ab.2 0 0 (sortedEdgesOf pointlist)
    else []

/-- Spec-side definition of the region enclosed by the polygon, following
the specification's words ("signed wrap count", "+1 entering on a rising
edge, −1 on falling"): the contribution of one edge to the winding number
of the leftward horizontal ray from `(px, py)` — ±1 when the edge is
vertical, lies strictly left of `px`, and its y-span strictly contains
`py`. -/
def windTerm (px py : ℚ) (e : PolyEdge) : ℤ :=
  if e.1.x = e.2.x ∧ e.1.x < px ∧
      ((e.1.y < py ∧ py < e.2.y) ∨ (e.2.y < py ∧ py < e.1.y)) then
    (if e.1.y < e.2.y then 1 else -1)
  else 0

/-- Spec-side: the winding number of the closed polygon around `(px, py)`;
the region enclosed by the polygon is where it is nonzero. -/
def windingAt (pointlist : List DPoint) (px py : ℚ) : ℤ :=
  ((edgesOf pointlist).map (windTerm px py)).sum

/-- The wrap-number contribution of one edge for the minimal y-range
`(ybot, ytop)`: the summand the scan loop adds when it passes the edge. -/
def spanSign (ybot ytop : ℚ) (e : PolyEdge) : ℤ :=
  if lefCross e (edgeDir e) ybot ytop then edgeSign (edgeDir e) else 0

/-- The total wrap contribution of an edge list on a y-range. -/
def spanSum (ybot ytop : ℚ) (es : List PolyEdge) : ℤ :=
  (es.map (spanSign ybot ytop)).sum

/-- The wrap contribution of the edges strictly left of `px`. -/
def spanSumBefore (ybot ytop px : ℚ) (es : List PolyEdge) : ℤ :=
  ((es.filter fun e => decide (e.1.x < px)).map (spanSign ybot ytop)).sum

/-- The comparison step function used to telescope crossing counts: 1 when
the point lies strictly above the ray height. -/
def stepTerm (py : ℚ) (p : DPoint) : ℤ :=
  if py < p.y then 1 else 0

/-- Membership of a point in a (closed) rectangle. -/
def inRect (px py : ℚ) (r : DSeg) : Prop :=
  r.x1 ≤ px ∧ px ≤ r.x2 ∧ r.y1 ≤ py ∧ py ≤ r.y2

instance (px py : ℚ) (r : DSeg) : Decidable (inRect px py r) := by
  unfold inRect; infer_instance

/-- Two rectangles overlap when their interiors intersect. -/
def rectOverlap (r s : DSeg) : Prop :=
  r.x1 < s.x2 ∧ s.x1 < r.x2 ∧ r.y1 < s.y2 ∧ s.y1 < r.y2

instance (r s : DSeg) : Decidable (rectOverlap r s) := by
  unfold rectOverlap; infer_instance

/-- A point list is Manhattan when every edge of its closure is horizontal
or vertical (what `lefOrient` checks). -/
def manhattan (pl : List DPoint) : Prop :=
  ∀ e ∈ polyEdges (closePath pl), e.1.y = e.2.y ∨ e.1.x = e.2.x

instance (pl : List DPoint) : Decidable (manhattan pl) := by
  unfold manhattan; infer_instance

/-- `px` avoids every x coordinate appearing on an edge endpoint of the
closed polygon (a generic vertical line). -/
def genericX (pl : List DPoint) (px : ℚ) : Prop :=
  ∀ e ∈ polyEdges (closePath pl), px ≠ e.1.x ∧ px ≠ e.2.x

instance (pl : List DPoint) (px : ℚ) : Decidable (genericX pl px) := by
  unfold genericX; infer_instance

/-- `py` avoids every y coordinate appearing on an edge endpoint of the
closed polygon (a generic horizontal line). -/
def genericY (pl : List DPoint) (py : ℚ) : Prop :=
  ∀ e ∈ polyEdges (closePath pl), py ≠ e.1.y ∧ py ≠ e.2.y

instance (pl : List DPoint) (py : ℚ) : Decidable (genericY pl py) := by
  unfold genericY; infer_instance

/-! ## Placement transform (def.c, DefReadComponents / DefReadLocation) -/

/-- The three orientation flags a gate carries (`MX`, `MY`, `R90` bits of
`gate->orient`). -/
structure Orient where
  r90 : Bool
  mx : Bool
  my : Bool
deriving DecidableEq, Repr

/-- The eight DEF orientation keywords. -/
inductive DefOrient
  | N | S | E | W | FN | FS | FE | FW
deriving DecidableEq, Repr

/-- `DefReadLocation`'s decoding of an orientation keyword into the three
flags. -/
def defOrientFlags : DefOrient → Orient
  | .N  => ⟨false, false, false⟩
  | .S  => ⟨false, true,  true⟩
  | .E  => ⟨true,  false, false⟩
  | .W  => ⟨true,  true,  true⟩
  | .FN => ⟨false, true,  false⟩
  | .FS => ⟨false, false, true⟩
  | .FE => ⟨true,  true,  false⟩
  | .FW => ⟨true,  false, true⟩

/-- The per-rectangle placement transform from `DefReadComponents`
(def.c lines 1786–1828): subtract the macro origin `(ox, oy)`, apply the
rotate-90 step (using the macro width `w`), then the mirror-X step (about
`w`, merged with the x translation to `placedX`), then the mirror-Y step
(about the macro height `h`, merged with the y translation to `placedY`). -/
def defPlaceRect (o : Orient) (placedX placedY w h ox oy : ℚ) (r : DSeg) : DSeg :=
  let r1 : DSeg := { r with x1 := r.x1 - ox, x2 := r.x2 - ox,
                            y1 := r.y1 - oy, y2 := r.y2 - oy }
  let r2 : DSeg :=
    if o.r90 then
      { r1 with x1 := r1.y1, y1 := -r1.x1 + w, x2 := r1.y2, y2 := -r1.x2 + w }
    else r1
  let r3 : DSeg :=
    if o.mx then
      { r2 with x1 := -r2.x2 + placedX + w, x2 := -r2.x1 + placedX + w }
    else { r2 with x1 := r2.x1 + placedX, x2 := r2.x2 + placedX }
  if o.my then
    { r3 with y1 := -r3.y2 + placedY + h, y2 := -r3.y1 + placedY + h }
  else { r3 with y1 := r3.y1 + placedY, y2 := r3.y2 + placedY }

/-- Spec-side: rotate a rectangle by 90 degrees about the macro's own
width, `(x, y) ↦ (y, w − x)` applied to both stored corners. -/
def specRot90 (w : ℚ) (r : DSeg) : DSeg :=
  { r with x1 := r.y1, y1 := w - r.x1, x2 := r.y2, y2 := w - r.x2 }

/-- Spec-side: mirror a rectangle in x about the macro's own width. -/
def specMirrorX (w : ℚ) (r : DSeg) : DSeg :=
  { r with x1 := w - r.x2, x2 := w - r.x1 }

/-- Spec-side: mirror a rectangle in y about the macro's own height. -/
def specMirrorY (h : ℚ) (r : DSeg) : DSeg :=
  { r with y1 := h - r.y2, y2 := h - r.y1 }

/-- Spec-side: translate a rectangle by the placement position. -/
def specTranslate (dx dy : ℚ) (r : DSeg) : DSeg :=
  { r with x1 := r.x1 + dx, x2 := r.x2 + dx, y1 := r.y1 + dy, y2 := r.y2 + dy }

/-- Spec-side: shift a rectangle from macro coordinates to origin-relative
coordinates (the origin subtraction preceding the orientation steps). -/
def specUnOrigin (ox oy : ℚ) (r : DSeg) : DSeg :=
  { r with x1 := r.x1 - ox, x2 := r.x2 - ox, y1 := r.y1 - oy, y2 := r.y2 - oy }

/-! ## Layer-rule queries and their fallbacks (lef.c) -/

/-- The `lefClass` values. -/
inductive LefClass
  | CLASS_ROUTE | CLASS_CUT | CLASS_VIA | CLASS_MASTERSLICE | CLASS_OVERLAP | CLASS_IGNORE
deriving DecidableEq, Repr

/-- One SPACING rule (`lefSpacingRule`): minimum spacing for wires of at
least the given width. -/
structure LefSpacingRule where
  width : ℚ
  spacing : ℚ
deriving DecidableEq, Repr

/-- The route-layer branch of the `lefLayer` union. -/
structure LefRouteInfo where
  width : ℚ
  spacing : List LefSpacingRule
  pitchx : ℚ
  pitchy : ℚ
  offsetx : ℚ
  offsety : ℚ
  hdirection : Bool
  minarea : ℚ
deriving DecidableEq, Repr

/-- The via branch of the `lefLayer` union: the defining rectangle, the
additional layer rectangles, and the generated flag. -/
structure LefViaInfo where
  area : DSeg
  lr : List DSeg
  generated : Bool
deriving DecidableEq, Repr

/-- A record of the `LefInfo` list.  The C `info` union is modelled with
both branches present; only the branch matching `lefClass` is meaningful. -/
structure LefLayer where
  lefName : String
  type : ℤ
  obsType : ℤ
  lefClass : LefClass
  route : LefRouteInfo
  via : LefViaInfo
deriving DecidableEq, Repr

/-- The global technology state the rule queries read: the `LefInfo` list
and the globals `PitchX`, `PitchY`, `PathWidth[]`, `Num_layers`. -/
structure LefState where
  lefInfo : List LefLayer
  pitchX : ℚ
  pitchY : ℚ
  pathWidth : ℤ → ℚ
  numLayers : ℤ

/-- The C `MIN` macro: `((a)<(b)?(a):(b))`. -/
def cMin (a b : ℚ) : ℚ := if a < b then a else b

/-- `LefFindLayerByNum`: first record whose layer number matches. -/
def LefFindLayerByNum (st : LefState) (layer : ℤ) : Option LefLayer :=
  st.lefInfo.find? (fun lefl => decide (lefl.type = layer))

/-- `LefGetRouteKeepout`: route space plus half the route width from the
layer's rule; with no route record, the fallback is the minimum pitch
minus half the configured path width (the C dereferences the head of the
spacing list unchecked; an empty list is modelled as spacing 0). -/
def LefGetRouteKeepout (st : LefState) (layer : ℤ) : ℚ :=
  match LefFindLayerByNum st layer with
  | some lefl =>
    if lefl.lefClass = LefClass.CLASS_ROUTE then
      lefl.route.width / 2 + ((lefl.route.spacing.map (·.spacing)).headD 0)
    else cMin st.pitchX st.pitchY - st.pathWidth layer / 2
  | none => cMin st.pitchX st.pitchY - st.pathWidth layer / 2

/-- `LefGetRouteWidth`: the layer's stored width, else half the minimum
pitch. -/
def LefGetRouteWidth (st : LefState) (layer : ℤ) : ℚ :=
  match LefFindLayerByNum st layer with
  | some lefl =>
    if lefl.lefClass = LefClass.CLASS_ROUTE then lefl.route.width
    else cMin st.pitchX st.pitchY / 2
  | none => cMin st.pitchX st.pitchY / 2

/-- `LefGetRouteSpacing`: the head of the layer's spacing rule list (zero
when the list is empty), else half the minimum pitch. -/
def LefGetRouteSpacing (st : LefState) (layer : ℤ) : ℚ :=
  match LefFindLayerByNum st layer with
  | some lefl =>
    if lefl.lefClass = LefClass.CLASS_ROUTE then
      match lefl.route.spacing with
      | [] => 0
      | s :: _ => s.spacing
    else cMin st.pitchX st.pitchY / 2
  | none => cMin st.pitchX st.pitchY / 2

/-- No route-layer record stores a rule for this layer index (the
fallback situation of the specification). -/
def noRouteRecord (st : LefState) (layer : ℤ) : Prop :=
  ∀ lefl, LefFindLayerByNum st layer = some lefl → lefl.lefClass ≠ LefClass.CLASS_ROUTE

/-! ## Diagnostics counters (lef.c, LefError) -/

/-- The four diagnostic classifications accepted by `LefError`. -/
inductive LefErrType
  | LEF_ERROR | LEF_WARNING | DEF_ERROR | DEF_WARNING
deriving DecidableEq, Repr

/-- The two static running totals inside `LefError`. -/
structure ErrCounts where
  fatal : ℕ
  nonfatal : ℕ
deriving DecidableEq, Repr

/-- One call of `LefError`: given the global `Verbose` level, the message
classification and whether a message format string was supplied, update
the totals and possibly emit the cumulative report (the sentinel call with
no message prints and resets only when some count is nonzero). -/
def LefError (verbose : ℕ) (ty : LefErrType) (hasMsg : Bool) (st : ErrCounts) :
    ErrCounts × Option (ℕ × ℕ) :=
  if verbose = 0 then (st, none)
  else if hasMsg = false then
    (if 0 < st.fatal + st.nonfatal then (⟨0, 0⟩, some (st.fatal, st.nonfatal))
     else (st, none))
  else
    match ty with
    | .LEF_ERROR | .DEF_ERROR => (⟨st.fatal + 1, st.nonfatal⟩, none)
    | .LEF_WARNING | .DEF_WARNING => (⟨st.fatal, st.nonfatal + 1⟩, none)

/-! ## Via selection heuristic (lef.c, LefAssignLayerVias) -/

/-- Modelled from the spec: the fixed bound `MAX_LAYERS` of the per-layer
via arrays comes from a header that is not under src/; its exact value is
immaterial to the claims proved here. -/
def MAX_LAYERS : ℤ := 12

/-- Modelled from the spec: the numeric tolerance `EPS` comes from a
header that is not under src/; any positive value fits the claims proved
here. -/
def EPS : ℚ := 1 / 1000000

/-- The four per-base-layer via orientation tables (`ViaXX`, `ViaXY`,
`ViaYX`, `ViaYY`), each mapping a base layer to the chosen via name. -/
structure ViaTables where
  xx : ℤ → Option String
  xy : ℤ → Option String
  yx : ℤ → Option String
  yy : ℤ → Option String

/-- Pointwise update of one orientation table. -/
def updT (f : ℤ → Option String) (b : ℤ) (v : Option String) : ℤ → Option String :=
  fun i => if i = b then v else f i

/-- Fill one slot only if it is still empty. -/
def fillT (f : ℤ → Option String) (b : ℤ) (name : String) : ℤ → Option String :=
  fun i => if i = b ∧ f b = none then some name else f i

/-- Elongation of a rectangle: x extent minus y extent. -/
def rectElong (r : DSeg) : ℚ := (r.x2 - r.x1) - (r.y2 - r.y1)

/-- First segment of `LefAssignLayerVias` applied to one generated via:
determine its base layer and invalidate the generated flag when a layer
rectangle has a negative layer.  Returns the (possibly updated) via info
and the base layer to mark in `hasGenerate`, if any.  (When `lr` is empty
the C code dereferences `lr->next` without a guard; generated vias always
carry layer rectangles, and the model skips both inner checks there.) -/
def pass0Via (v : LefViaInfo) : LefViaInfo × Option ℤ :=
  let b0 := v.area.layer
  match v.lr with
  | [] => (v, if 0 ≤ b0 ∧ b0 < MAX_LAYERS then some b0 else none)
  | r1 :: rest =>
    if r1.layer < 0 then ({ v with generated := false }, none)
    else
      let b1 := if b0 < 0 ∨ r1.layer < b0 then r1.layer else b0
      match rest with
      | [] => (v, if 0 ≤ b1 ∧ b1 < MAX_LAYERS then some b1 else none)
      | r2 :: _ =>
        if r2.layer < 0 then ({ v with generated := false }, none)
        else
          let b2 := if b1 < 0 ∨ r2.layer < b1 then r2.layer else b1
          (v, if 0 ≤ b2 ∧ b2 < MAX_LAYERS then some b2 else none)

/-- The `hasGenerate` pass over the whole list (lef.c 3310–3335). -/
def lefAssignPass0 : List LefLayer → List LefLayer × (ℤ → Bool)
  | [] => ([], fun _ => false)
  | lefl :: rest =>
    let tl := lefAssignPass0 rest
    if lefl.lefClass = LefClass.CLASS_VIA ∧ lefl.via.generated = true then
      let pv := pass0Via lefl.via
      ({ lefl with via := pv.1 } :: tl.1,
       fun b => if pv.2 = some b then true else tl.2 b)
    else (lefl :: tl.1, tl.2)

/-- The minimum and maximum routing layer numbers (lef.c 3339–3353). -/
def lefMinMaxRoute (info : List LefLayer) : ℤ × ℤ :=
  info.foldl
    (fun mm lefl =>
      if lefl.lefClass = LefClass.CLASS_ROUTE then
        if mm.1 = -1 then (lefl.type, lefl.type)
        else (if lefl.type < mm.1 then lefl.type else mm.1,
              if lefl.type > mm.2 then lefl.type else mm.2)
      else mm)
    (-1, -1)

/-- The base/top layer and elongation computation shared by the three
passes (lef.c 3355–3384 and twins): seed from the defining rectangle when
its layer is a routing layer, lower the base over the layer rectangles,
reset top to base, then raise the top over the layer rectangles.  The
top elongation keeps the seed value when no higher in-range rectangle
exists (the C leaves it unset in that case when the seed did not apply;
the model uses the same seed slot, initialised to 0). -/
def viaBaseTop (minroute maxroute : ℤ) (v : LefViaInfo) : ℤ × ℤ × ℚ × ℚ :=
  let seed : ℤ × ℚ :=
    if minroute ≤ v.area.layer ∧ v.area.layer ≤ maxroute then (v.area.layer, rectElong v.area)
    else (MAX_LAYERS, 0)
  let base := v.lr.foldl
    (fun (acc : ℤ × ℚ) g =>
      if (minroute ≤ g.layer ∧ g.layer ≤ maxroute) ∧ g.layer < acc.1
      then (g.layer, rectElong g) else acc) seed
  let top := v.lr.foldl
    (fun (acc : ℤ × ℚ) g =>
      if (minroute ≤ g.layer ∧ g.layer ≤ maxroute) ∧ g.layer > acc.1
      then (g.layer, rectElong g) else acc) (base.1, seed.2)
  (base.1, top.1, base.2, top.2)

/-- The shared "continue" test of the three passes: skip a via that is not
on the allow-list (when one exists), or a literal via on a base layer that
has a generate-rule via. -/
def viaSkip (allowed : Option (List String)) (hg : ℤ → Bool)
    (name : String) (generated : Bool) (b : ℤ) : Bool :=
  match allowed with
  | some names => !(names.contains name)
  | none => hg b && !generated

/-- Pass 1 slot assignment for one via with clearly unequal elongations
(lef.c 3406–3421); later vias overwrite earlier choices. -/
def pass1Update (t : ViaTables) (b : ℤ) (name : String) (xyb xyt : ℚ) : ViaTables :=
  if xyt > EPS ∧ xyb < -EPS then { t with yx := updT t.yx b (some name) }
  else if xyt < -EPS ∧ xyb > EPS then { t with xy := updT t.xy b (some name) }
  else if xyt > EPS ∧ xyb > EPS then { t with xx := updT t.xx b (some name) }
  else if xyt < -EPS ∧ xyb < -EPS then { t with yy := updT t.yy b (some name) }
  else t

/-- Pass 2 slot assignment for one via square on exactly one side
(lef.c 3477–3506); only fills still-empty slots. -/
def pass2Update (t : ViaTables) (b : ℤ) (name : String) (xyb xyt : ℚ) : ViaTables :=
  if xyt < EPS ∧ xyt > -EPS then
    (if xyb > EPS then { t with xx := fillT t.xx b name, xy := fillT t.xy b name }
     else if xyb < -EPS then { t with yx := fillT t.yx b name, yy := fillT t.yy b name }
     else t)
  else if xyb < EPS ∧ xyb > -EPS then
    (if xyt > EPS then { t with xx := fillT t.xx b name, yx := fillT t.yx b name }
     else if xyt < -EPS then { t with xy := fillT t.xy b name, yy := fillT t.yy b name }
     else t)
  else t

/-- Pass 3 slot assignment for one via square on both sides
(lef.c 3561–3572); fills every still-empty slot. -/
def pass3Update (t : ViaTables) (b : ℤ) (name : String) (xyb xyt : ℚ) : ViaTables :=
  if (xyt < EPS ∧ xyt > -EPS) ∧ (xyb < EPS ∧ xyb > -EPS) then
    { xx := fillT t.xx b name, xy := fillT t.xy b name,
      yx := fillT t.yx b name, yy := fillT t.yy b name }
  else t

/-- One of the three passes over the via list, parameterised by the
per-via slot update. -/
def lefAssignPass (upd : ViaTables → ℤ → String → ℚ → ℚ → ViaTables)
    (minroute maxroute : ℤ) (allowed : Option (List String)) (hg : ℤ → Bool) :
    List LefLayer → ViaTables → ViaTables
  | [], t => t
  | lefl :: rest, t =>
    let t1 :=
      if lefl.lefClass = LefClass.CLASS_VIA ∧ lefl.via.lr ≠ [] then
        let bt := viaBaseTop minroute maxroute lefl.via
        if (bt.1 < MAX_LAYERS ∧ bt.2.1 < MAX_LAYERS) ∧ (0 ≤ bt.1 ∧ 0 ≤ bt.2.1) then
          if viaSkip allowed hg lefl.lefName lefl.via.generated bt.1 then t
          else upd t bt.1 lefl.lefName bt.2.2.1 bt.2.2.2
        else t
      else t
    lefAssignPass upd minroute maxroute allowed hg rest t1

/-- All four new-table slots at a base layer are still empty. -/
def allNoneAt (n : ViaTables) (b : ℤ) : Prop :=
  n.xx b = none ∧ n.xy b = none ∧ n.yx b = none ∧ n.yy b = none

instance (n : ViaTables) (b : ℤ) : Decidable (allNoneAt n b) := by
  unfold allNoneAt; infer_instance

/-- The copy-back-with-back-fill step (lef.c 3581–3644): for each base
layer with at least one recorded slot, replace the old tables by the new
ones, back-filling each empty slot from the other new slots in the fixed
preference order; base layers with nothing recorded keep their old
entries. -/
def lefCopyBack (old n : ViaTables) : ViaTables where
  xx := fun b =>
    if 0 ≤ b ∧ b < MAX_LAYERS then
      if allNoneAt n b then old.xx b
      else match n.xx b with
        | some s => some s
        | none => match n.xy b with
          | some s => some s
          | none => match n.yx b with
            | some s => some s
            | none => n.yy b
    else old.xx b
  xy := fun b =>
    if 0 ≤ b ∧ b < MAX_LAYERS then
      if allNoneAt n b then old.xy b
      else match n.xy b with
        | some s => some s
        | none => match n.xx b with
          | some s => some s
          | none => match n.yy b with
            | some s => some s
            | none => n.yx b
    else old.xy b
  yx := fun b =>
    if 0 ≤ b ∧ b < MAX_LAYERS then
      if allNoneAt n b then old.yx b
      else match n.yx b with
        | some s => some s
        | none => match n.yy b with
          | some s => some s
          | none => match n.xx b with
            | some s => some s
            | none => n.xy b
    else old.yx b
  yy := fun b =>
    if 0 ≤ b ∧ b < MAX_LAYERS then
      if allNoneAt n b then old.yy b
      else match n.yy b with
        | some s => some s
        | none => match n.yx b with
          | some s => some s
          | none => match n.xy b with
            | some s => some s
            | none => n.xx b
    else old.yy b

/-- The state read and written by `LefAssignLayerVias`: the technology
list, the optional via allow-list, and the four orientation tables. -/
structure AssignState where
  lefInfo : List LefLayer
  allowedVias : Option (List String)
  viaTables : ViaTables

/-- The slots recorded during the three passes (the `newVia**` arrays
just before the copy-back loop of `LefAssignLayerVias`). -/
def lefRecordedVias (st : AssignState) : ViaTables :=
  let p0 := lefAssignPass0 st.lefInfo
  let mm := lefMinMaxRoute p0.1
  let empty : ViaTables := ⟨fun _ => none, fun _ => none, fun _ => none, fun _ => none⟩
  let n1 := lefAssignPass pass1Update mm.1 mm.2 st.allowedVias p0.2 p0.1 empty
  let n2 := lefAssignPass pass2Update mm.1 mm.2 st.allowedVias p0.2 p0.1 n1
  lefAssignPass pass3Update mm.1 mm.2 st.allowedVias p0.2 p0.1 n2

/-- `LefAssignLayerVias`: run the `hasGenerate` pass, the three assignment
passes and the copy-back with back-fill. -/
def LefAssignLayerVias (st : AssignState) : AssignState :=
  { st with
    lefInfo := (lefAssignPass0 st.lefInfo).1,
    viaTables := lefCopyBack st.viaTables (lefRecordedVias st) }

/-! ## TRACKS and DIEAREA processing (def.c, DefRead) -/

/-- One `Tracks[layer]` record (`struct tracks_`). -/
structure TracksRec where
  start : ℚ
  ntracks : ℤ
  pitch : ℚ
deriving DecidableEq, Repr

/-- The part of the global state DefRead's TRACKS/DIEAREA handling touches:
the per-layer track records, the vertical-track flags `Vert[]`, the global
pitches and the global bounds. -/
structure DefTrackState where
  tracks : ℤ → Option TracksRec
  vert : ℤ → Bool
  pitchX : ℚ
  pitchY : ℚ
  xlower : ℚ
  xupper : ℚ
  ylower : ℚ
  yupper : ℚ
  numLayers : ℤ

/-- The DIEAREA statement (def.c 2180–2191): the actual bounds are seeded
with the die-area midpoint (the rectangle itself is kept aside and used
only by `defFinalBounds`). -/
def defReadDieArea (diearea : DSeg) (st : DefTrackState) : DefTrackState :=
  let xm := (diearea.x1 + diearea.x2) / 2
  let ym := (diearea.y1 + diearea.y2) / 2
  { st with xlower := xm, xupper := xm, ylower := ym, yupper := ym }

/-- One successfully parsed TRACKS statement (def.c 2083–2166): record the
layer's track set (scaled to microns), mark the layer's track direction,
lower the matching global pitch, and widen the global bounds by the
declared range.  Statements with a bad or out-of-range layer are dropped. -/
def defReadTracksStmt (corient : Char) (start : ℚ) (channels : ℤ) (step : ℚ)
    (curlayer : ℤ) (oscale : ℚ) (st : DefTrackState) : DefTrackState :=
  if curlayer < 0 then st
  else if st.numLayers ≤ curlayer then st
  else
    let st1 := { st with tracks := fun l =>
      if l = curlayer then some ⟨start / oscale, channels, step / oscale⟩ else st.tracks l }
    if corient = 'x' then
      let locpitch := step / oscale
      let st2 := { st1 with
        vert := fun l => if l = curlayer then true else st1.vert l,
        pitchX := if st1.pitchX = 0 ∨ locpitch < st1.pitchX then locpitch else st1.pitchX }
      let llx := start
      let urx := start + step * (channels : ℚ)
      let st3 := if llx / oscale < st2.xlower then { st2 with xlower := llx / oscale } else st2
      if urx / oscale > st3.xupper then { st3 with xupper := urx / oscale } else st3
    else
      let locpitch := step / oscale
      let st2 := { st1 with
        vert := fun l => if l = curlayer then false else st1.vert l,
        pitchY := if st1.pitchY = 0 ∨ locpitch < st1.pitchY then locpitch else st1.pitchY }
      let lly := start
      let ury := start + step * (channels : ℚ)
      let st3 := if lly / oscale < st2.ylower then { st2 with ylower := lly / oscale } else st2
      if ury / oscale > st3.yupper then { st3 with yupper := ury / oscale } else st3

/-- End of DefRead (def.c 2273–2280): if no TRACKS statement widened an
axis, fall back to the die-area rectangle for that axis. -/
def defFinalBounds (diearea : DSeg) (st : DefTrackState) : DefTrackState :=
  let st1 :=
    if st.xlower = st.xupper then { st with xlower := diearea.x1, xupper := diearea.x2 }
    else st
  if st1.ylower = st1.yupper then { st1 with ylower := diearea.y1, yupper := diearea.y2 }
  else st1

/-! ## PINS section (def.c, DefReadPins) -/

/-- A degenerate one-node gate created for a design pin. -/
structure PinGate where
  gatename : String
  width : ℚ
  height : ℚ
  placedX : ℚ
  placedY : ℚ
  orient : Orient
  nodes : ℤ
  taps0 : Option DSeg
  netnum0 : ℤ
  node0 : Option String
  direction0 : ℤ
deriving DecidableEq, Repr

/-- One "+"-property of a pin statement, at parsed-token granularity.
`dirProp`/`useProp` carry the keyword-table index when the token was
recognised; `layerProp` carries the layer number `LefReadLayer` resolved
(−1 when unknown) and the rectangle `LefReadRect` parsed, already scaled;
`placedProp` covers PLACED/FIXED/COVER via `DefReadLocation` (raw file
coordinates plus the decoded orientation; `none` when the orientation
keyword was unknown, in which case the location is not stored). -/
inductive PinProp
  | netProp (name : String)
  | dirProp (subkey : Option ℤ)
  | layerProp (curlayer : ℤ) (rect : Option DSeg)
  | useProp (u : Option ℤ)
  | placedProp (x y : ℚ) (o : Option DefOrient)
  | unknownProp
deriving DecidableEq, Repr

/-- The locals and gate fields accumulated while scanning one pin
statement's properties.  The C leaves the placement fields of the
malloc'd gate unset until a placement property arrives; the model starts
them at 0. -/
structure PinParse where
  gatename : Option String
  node0 : Option String
  direction0 : ℤ
  width : ℚ
  height : ℚ
  placedX : ℚ
  placedY : ℚ
  orient : Orient
  curlayer : ℤ
  pinUse : ℤ
deriving DecidableEq, Repr

/-- Initial per-pin parse state (gate creation, def.c 1178–1197). -/
def initPinParse : PinParse :=
  ⟨none, none, 0, 0, 0, 0, 0, ⟨false, false, false⟩, -1, 0⟩

/-- Effect of one pin property (def.c 1215–1253). -/
def defPinPropStep (oscale : ℚ) (s : PinParse) : PinProp → PinParse
  | .netProp n => { s with gatename := some n, node0 := some n }
  | .dirProp k =>
    match k with
    | some v => { s with direction0 := v }
    | none => s
  | .layerProp l r =>
    let s1 := { s with curlayer := l }
    match r with
    | some rect => { s1 with width := rect.x2 - rect.x1, height := rect.y2 - rect.y1 }
    | none => s1
  | .useProp u =>
    match u with
    | some v => { s with pinUse := v }
    | none => s
  | .placedProp x y o =>
    match o with
    | some k => { s with placedX := x / oscale, placedY := y / oscale,
                         orient := defOrientFlags k }
    | none => s
  | .unknownProp => s

/-- The state DefReadPins touches: the technology state (for
`LefGetRouteWidth` and `Num_layers`) and the global instance list. -/
structure PinState where
  lef : LefState
  nlgates : List PinGate

/-- The parse state after scanning all properties of one pin statement. -/
def pinParseOf (props : List PinProp) (oscale : ℚ) : PinParse :=
  props.foldl (defPinPropStep oscale) initPinParse

/-- One pin statement of the PINS section (def.c 1161–1295): scan the
properties, then—when the declared layer is a routing layer—create the
one-node gate with its square tap, enlarging the recorded width/height to
at least the route width; otherwise create nothing. -/
def defReadPinStmt (pinname : String) (props : List PinProp) (oscale : ℚ)
    (st : PinState) : PinState :=
  let s := pinParseOf props oscale
  if 0 ≤ s.curlayer ∧ s.curlayer < st.lef.numLayers then
    let gname := s.gatename.getD pinname
    let hwidth := LefGetRouteWidth st.lef s.curlayer
    let w1 := if s.width < hwidth then hwidth else s.width
    let h1 := if s.height < hwidth then hwidth else s.height
    let hw := hwidth / 2
    let tap : DSeg := ⟨s.placedX - hw, s.placedY - hw, s.placedX + hw, s.placedY + hw,
                       s.curlayer⟩
    { st with nlgates :=
        ⟨gname, w1, h1, s.placedX, s.placedY, s.orient, 1, some tap, -1, s.node0,
         s.direction0⟩ :: st.nlgates }
  else st

/-! ## Technology-name redefinition (lef.c, LefRedefined) -/

/-- The `LefInfo` list with pointer identity made explicit: list slots
hold record ids, and a heap maps ids to records.  This makes the
aliased configuration (several slots pointing at one record) that
`LefRedefined` documents representable. -/
structure LefAliasState where
  recs : ℕ → LefLayer
  infoIds : List ℕ
  nextId : ℕ

/-- `LefFindLayer` over the id-based list: first slot whose record carries
the name. -/
def lefFindLayerId (st : LefAliasState) (token : String) : Option ℕ :=
  st.infoIds.find? (fun i => decide ((st.recs i).lefName = token))

/-- The field resets applied to the record chosen by `LefRedefined`
(lef.c 552–560, plus the lr free of 528–532 in the single-name branch). -/
def lefRedefReset (r : LefLayer) : LefLayer :=
  { r with type := -1, obsType := -1,
           via := { area := ⟨0, 0, 0, 0, -1⟩, lr := [], generated := r.via.generated } }

/-- `LefRedefined` (lef.c 500–563): count how many list slots reference
this record and note the first listed name differing from `redefname`.
With a single reference, clear and reset the record in place.  Otherwise
allocate a fresh record—whose name the C sets by `strdup`ing the fresh
record's own uninitialised `lefName` field, modelled by the unspecified
`garbage` string—prepend it, and rename the record currently found under
`redefname` to the alternative name if one exists.  Returns the id of the
record to be used for the new definition plus the updated state. -/
def LefRedefined (st : LefAliasState) (lefl : ℕ) (redefname garbage : String) :
    ℕ × LefAliasState :=
  let records := (st.infoIds.filter (fun i => i = lefl)).length
  let altName := ((st.infoIds.map fun i => (st.recs i).lefName).filter
      (fun nm => nm ≠ redefname)).head?
  if records = 1 then
    (lefl,
     { st with recs := fun i => if i = lefl then lefRedefReset (st.recs lefl) else st.recs i })
  else
    let slef := lefFindLayerId st redefname
    let newId := st.nextId
    let newRec : LefLayer :=
      lefRedefReset
        { lefName := garbage, type := 0, obsType := 0, lefClass := LefClass.CLASS_IGNORE,
          route := ⟨0, [], 0, 0, 0, 0, false, 0⟩,
          via := ⟨⟨0, 0, 0, 0, 0⟩, [], false⟩ }
    let recs1 : ℕ → LefLayer := fun i => if i = newId then newRec else st.recs i
    let recs2 : ℕ → LefLayer :=
      match slef, altName with
      | some sid, some alt =>
        if (st.recs sid).lefName = redefname then
          fun i => if i = sid then { recs1 sid with lefName := alt } else recs1 i
        else recs1
      | _, _ => recs1
    (newId, { recs := recs2, infoIds := newId :: st.infoIds, nextId := st.nextId + 1 })

/-! ## Net numbering and node counts (def.c, DefReadNets) -/

/-- Modelled from the spec: the reserved power net number (header not
under src/; the spec fixes only that the two reserved identifiers sit
below all regular numbers and 0 is invalid). -/
def VDD_NET : ℤ := 1

/-- Modelled from the spec: the reserved ground net number. -/
def GND_NET : ℤ := 2

/-- Modelled from the spec: the first regular net number, above both
reserved identifiers. -/
def MIN_NET_NUMBER : ℤ := 3

/-- One node record of a net (the fields the numbering claim mentions). -/
structure NodeRec where
  nodenum : ℤ
  numnodes : ℤ
deriving DecidableEq, Repr

/-- One net record (the fields the numbering claim mentions). -/
structure NetRec where
  netname : String
  netnum : ℤ
  numnodes : ℤ
  netnodes : List NodeRec
deriving DecidableEq, Repr

/-- The net database: `Nlnets` in creation order plus `Numnets`. -/
structure NetsState where
  nlnets : List NetRec
  numnets : ℕ
deriving DecidableEq, Repr

/-- ASCII lower-casing of one character (the effect of `strcasecmp`'s
per-character `tolower`). -/
def lowerChar (c : Char) : Char :=
  if 'A' ≤ c ∧ c ≤ 'Z' then Char.ofNat (c.toNat + 32) else c

/-- Case-insensitive string equality, as `strcasecmp` returning 0. -/
def strCaseEq (a b : String) : Bool :=
  a.data.map lowerChar == b.data.map lowerChar

/-- `DefFindNet`: case-insensitive lookup by name, as `strcasecmp`. -/
def defFindNetIdx (nets : List NetRec) (name : String) : Option ℕ :=
  nets.findIdx? (fun n => strCaseEq n.netname name)

/-- The nodes a net statement adds: each connection allocates a node
numbered by the running `nodeidx` and prepends it (def.c 871–873, 700–702),
so the stored list holds them in reverse. -/
def mkNodes (startIdx : ℤ) (k : ℕ) : List NodeRec :=
  ((List.range k).map fun j => (⟨startIdx + (j : ℤ), 0⟩ : NodeRec)).reverse

/-- One net statement of a NETS/SPECIALNETS section (def.c 807–931),
abstracted to its name and its number of successfully attached
connections: reuse an existing net (continuing its node numbering from
the stored count) or create a new one, numbering it `VDD_NET`/`GND_NET`
when the name matches the global power/ground names and with the running
`netidx` otherwise. -/
def defNetStmt (vddnet gndnet : Option String) (acc : List NetRec × ℤ)
    (stmt : String × ℕ) : List NetRec × ℤ :=
  match defFindNetIdx acc.1 stmt.1 with
  | some i =>
    match acc.1.get? i with
    | some net =>
      (acc.1.set i { net with netnodes := mkNodes net.numnodes stmt.2 ++ net.netnodes },
       acc.2)
    | none => acc
  | none =>
    let num :=
      if vddnet = some stmt.1 then VDD_NET
      else if gndnet = some stmt.1 then GND_NET
      else acc.2
    let bump := if vddnet = some stmt.1 ∨ gndnet = some stmt.1 then acc.2 else acc.2 + 1
    (acc.1 ++ [⟨stmt.1, num, 0, mkNodes 0 stmt.2⟩], bump)

/-- End of a regular NETS call (def.c 947–958): add the node count of
every net to its stored total and mirror the total onto every node. -/
def defNetsFinalize (nets : List NetRec) : List NetRec :=
  nets.map fun net =>
    let total := net.numnodes + (net.netnodes.length : ℤ)
    { net with numnodes := total,
               netnodes := net.netnodes.map fun nd => { nd with numnodes := total } }

/-- One call of `DefReadNets` (def.c 737–970) over the parsed statements:
seed `netidx` from `MIN_NET_NUMBER` on the first call but from the plain
net count `Numnets` on a later call (def.c 777, 789), process the
statements, and on the regular (non-special) call mirror node counts. -/
def DefReadNets (special : Bool) (vddnet gndnet : Option String)
    (stmts : List (String × ℕ)) (st : NetsState) : NetsState :=
  let netidx0 : ℤ := if st.numnets = 0 then MIN_NET_NUMBER else (st.numnets : ℤ)
  let run := stmts.foldl (defNetStmt vddnet gndnet) (st.nlnets, netidx0)
  let nets2 := if special then run.1 else defNetsFinalize run.1
  ⟨nets2, nets2.length⟩

/-! ## Route statements (def.c, DefAddRoutes) -/

/-- Modelled from the spec: a route segment is either a wire or a via
(the `ST_WIRE`/`ST_VIA` constants live in a header not under src/). -/
inductive SegType
  | wire | via
deriving DecidableEq, Repr

/-- One route segment (`struct seg_`): type, grid coordinates, layer. -/
structure SegRec where
  segtype : SegType
  x1 : ℤ
  y1 : ℤ
  x2 : ℤ
  y2 : ℤ
  layer : ℤ
deriving DecidableEq, Repr

/-- One route (`struct route_`): net number, head-inserted segment list,
and the `RT_CHECK` flag bit. -/
structure RouteRec where
  netnum : ℤ
  segments : List SegRec
  rtCheck : Bool
deriving DecidableEq, Repr

/-- The net fields `DefAddRoutes` reads and writes. -/
structure RNet where
  netname : String
  netnum : ℤ
  ignored : Bool
  routes : List RouteRec
deriving DecidableEq, Repr

/-- The ambient read-only state of `DefAddRoutes` plus the obstruction
output list. -/
structure RouteEnv where
  lef : LefState
  xlowerbound : ℚ
  ylowerbound : ℚ
  oscale : ℚ

/-- `LefFindLayer` by name over the flat technology list. -/
def LefFindLayer (st : LefState) (token : String) : Option LefLayer :=
  st.lefInfo.find? (fun lefl => decide (lefl.lefName = token))

/-- `LefFindLayerNum`: the layer number of the named record, −1 when
unknown. -/
def LefFindLayerNum (st : LefState) (token : String) : ℤ :=
  match LefFindLayer st token with
  | some lefl => lefl.type
  | none => -1

/-- C `(int)` truncation of a rational toward zero. -/
def ctrunc (q : ℚ) : ℤ := if q < 0 then -⌊-q⌋ else ⌊q⌋

/-- The grid snap of def.c 441/472: `(int)(0.5 + (v − lower + EPS) / pitch)`. -/
def snapGrid (v lower pitch : ℚ) : ℤ := ctrunc (1 / 2 + (v - lower + EPS) / pitch)

/-- The parsed items of one route statement.  `newRec` is the layer (and,
for special nets, width) record that follows the statement start or the
NEW keyword; `coord` is an `( x y )` pair where `none` renders the `*`
wildcard; `viaRef` names a via; `stop` is the `;` or `+` that ends the
statement. -/
inductive RouteTok
  | newRec (layerName : String) (w : ℚ)
  | coord (x y : Option ℚ)
  | viaRef (name : String)
  | stop
deriving DecidableEq, Repr

/-- The mutable locals of `DefAddRoutes` plus its outputs: the net being
updated (whose head route is the one under construction whenever
`active`), and the global obstruction list. -/
structure RouteParse where
  valid : Bool
  refpX : ℤ
  refpY : ℤ
  x : ℚ
  y : ℚ
  routeLayer : ℤ
  paintLayer : ℤ
  w : ℚ
  active : Bool
  net : RNet
  userObs : List DSeg
deriving Repr

/-- Prepend a fresh empty route for the net and make it current
(def.c 292–302 and the twin blocks at 387–397, 554–564). -/
def ensureRoute (s : RouteParse) : RouteParse :=
  if s.active then s
  else { s with active := true,
                net := { s.net with routes := ⟨s.net.netnum, [], false⟩ :: s.net.routes } }

/-- Prepend a segment to the current route (creating it if necessary). -/
def pushSeg (seg : SegRec) (s : RouteParse) : RouteParse :=
  let s1 := ensureRoute s
  match s1.net.routes with
  | [] => s1
  | r :: rest =>
    { s1 with net := { s1.net with routes := { r with segments := seg :: r.segments } :: rest } }

/-- Set the `RT_CHECK` flag on the current route, if one exists
(def.c 446–449, 474–477). -/
def flagCheck (s : RouteParse) : RouteParse :=
  if s.active then
    match s.net.routes with
    | [] => s
    | r :: rest => { s with net := { s.net with routes := { r with rtCheck := true } :: rest } }
  else s

/-- The obstruction rectangle a special net's via produces
(def.c 336–343, 353–360): the via rectangle, halved, centred on the
current point and expanded by the route spacing of its layer. -/
def viaObs (env : RouteEnv) (cx cy : ℚ) (r : DSeg) (routeLayer : ℤ) : DSeg :=
  let s := LefGetRouteSpacing env.lef routeLayer
  ⟨cx + r.x1 / 2 - s, cy + r.y1 / 2 - s, cx + r.x2 / 2 + s, cy + r.y2 / 2 + s, routeLayer⟩

/-- Whether this special-net call must not generate obstructions
(def.c 239–243): routed special nets other than power/ground. -/
def noObstruct (special : Bool) (net : RNet) : Bool :=
  special && !net.ignored && !(net.netnum == VDD_NET) && !(net.netnum == GND_NET)

/-- One iteration of the layer-rectangle loop in the via-name branch
(def.c 346–362). -/
def viaLrStep (env : RouteEnv) (special noobstruct valid : Bool) (px py : ℚ) (nl : ℤ)
    (acc : RouteParse) (lr : DSeg) : RouteParse :=
  if nl ≤ lr.layer then acc
  else
    let pl := if lr.layer < acc.paintLayer then lr.layer else acc.paintLayer
    let acc1 := { acc with routeLayer := lr.layer, paintLayer := pl }
    if 0 ≤ lr.layer ∧ special ∧ valid ∧ ¬noobstruct then
      { acc1 with userObs := viaObs env px py lr lr.layer :: acc1.userObs }
    else acc1

/-- The via-name branch of `DefAddRoutes` (def.c 304–414). -/
def routeViaStep (env : RouteEnv) (special : Bool) (noobstruct : Bool)
    (name : String) (s : RouteParse) : RouteParse :=
  if !s.valid then s
  else
    match LefFindLayer env.lef name with
    | none => s
    | some lefl =>
      if lefl.lefClass = LefClass.CLASS_VIA then
        let nl := env.lef.numLayers
        let s0 := { s with paintLayer := nl - 1, routeLayer := -1 }
        let s1 :=
          if lefl.via.area.layer < nl then
            let rl := lefl.via.area.layer
            let s0a := { s0 with routeLayer := rl,
                                 paintLayer := if rl < s0.paintLayer then rl else s0.paintLayer }
            if 0 ≤ rl ∧ special ∧ s.valid ∧ ¬noobstruct then
              { s0a with userObs := viaObs env s.x s.y lefl.via.area rl :: s0a.userObs }
            else s0a
          else s0
        let s2 := lefl.via.lr.foldl (viaLrStep env special noobstruct s.valid s.x s.y nl) s1
        let s3 := if s2.routeLayer = -1 then { s2 with paintLayer := lefl.type } else s2
        if ¬special ∧ 0 ≤ s3.paintLayer ∧ s3.paintLayer < nl - 1 then
          pushSeg ⟨SegType.via, s3.refpX, s3.refpY, s3.refpX, s3.refpY, s3.paintLayer⟩ s3
        else s3
      else
        { s with paintLayer := lefl.type }

/-- The coordinate-pair branch of `DefAddRoutes` (def.c 415–577). -/
def routeCoordStep (env : RouteEnv) (special : Bool) (noobstruct : Bool)
    (cx cy : Option ℚ) (s : RouteParse) : RouteParse :=
  let s := { s with paintLayer := s.routeLayer }
  let lax := s.refpX
  let lay := s.refpY
  let lx := s.x
  let ly := s.y
  match cx with
  | none =>
    if !s.valid then s  -- no reference point for the wildcard: statement item dropped
    else
      match cy with
      | none => coordFinish env special noobstruct lax lay lx ly s
      | some vy =>
        let y1 := vy / env.oscale
        let g := snapGrid y1 env.ylowerbound env.lef.pitchY
        let s1 := { s with y := y1, refpY := g }
        let s2 :=
          if ¬special ∧ |((g : ℚ)) - (y1 - env.ylowerbound) / env.lef.pitchY| > 33 / 100
          then flagCheck s1 else s1
        coordFinish env special noobstruct lax lay lx ly s2
  | some vx =>
    let x1 := vx / env.oscale
    let gx := snapGrid x1 env.xlowerbound env.lef.pitchX
    let sx := { s with x := x1, refpX := gx }
    let sx2 :=
      if ¬special ∧ |((gx : ℚ)) - (x1 - env.xlowerbound) / env.lef.pitchX| > 33 / 100
      then flagCheck sx else sx
    match cy with
    | none =>
      if !s.valid then sx2  -- wildcard with no reference point: item dropped
      else coordFinish env special noobstruct lax lay lx ly sx2
    | some vy =>
      let y1 := vy / env.oscale
      let gy := snapGrid y1 env.ylowerbound env.lef.pitchY
      let sy := { sx2 with y := y1, refpY := gy }
      let sy2 :=
        if ¬special ∧ |((gy : ℚ)) - (y1 - env.ylowerbound) / env.lef.pitchY| > 33 / 100
        then flagCheck sy else sy
      coordFinish env special noobstruct lax lay lx ly sy2
where
  /-- def.c 485–571: establish the reference point, reject non-Manhattan
  steps, and emit the obstruction rectangle or wire segment. -/
  coordFinish (env : RouteEnv) (special : Bool) (noobstruct : Bool)
      (lax lay : ℤ) (lx ly : ℚ) (s : RouteParse) : RouteParse :=
    if !s.valid then { s with valid := true }
    else if lax ≠ s.refpX ∧ lay ≠ s.refpY then s  -- non-Manhattan: reset reference only
    else
      if special then
        (if s.valid ∧ ¬noobstruct then
          let sp := LefGetRouteSpacing env.lef s.routeLayer
          let hw := s.w / 2
          let xpair : ℚ × ℚ :=
            if lx > s.x then (s.x - sp, lx + sp)
            else if lx < s.x then (lx - sp, s.x + sp)
            else (s.x - hw - sp, s.x + hw + sp)
          let ypair : ℚ × ℚ :=
            if ly > s.y then (s.y - sp, ly + sp)
            else if ly < s.y then (ly - sp, s.y + sp)
            else (s.y - hw - sp, s.y + hw + sp)
          { s with userObs :=
              ⟨xpair.1, ypair.1, xpair.2, ypair.2, s.routeLayer⟩ :: s.userObs }
        else s)
      else if 0 ≤ s.paintLayer ∧ s.paintLayer < env.lef.numLayers then
        pushSeg ⟨SegType.wire, s.refpX, s.refpY, lax, lay, s.paintLayer⟩ s
      else s

/-- The NEW-record branch of `DefAddRoutes` (def.c 245–303); the initial
pass behaves identically. -/
def routeNewStep (env : RouteEnv) (special : Bool) (layerName : String) (wtok : ℚ)
    (s : RouteParse) : RouteParse :=
  let s := { s with valid := false }
  let rl := LefFindLayerNum env.lef layerName
  let s := { s with routeLayer := rl }
  if rl < 0 then s
  else if env.lef.numLayers ≤ rl then s
  else
    let s := { s with paintLayer := rl }
    let s :=
      if special then
        { s with w := if wtok ≠ 0 then wtok / env.oscale else LefGetRouteWidth env.lef rl }
      else { s with w := LefGetRouteWidth env.lef rl }
    if special then s
    else
      { s with active := true,
               net := { s.net with routes := ⟨s.net.netnum, [], false⟩ :: s.net.routes } }

/-- The token loop of `DefAddRoutes` (def.c 245–578). -/
def defAddRoutesLoop (env : RouteEnv) (special : Bool) (noobstruct : Bool) :
    List RouteTok → RouteParse → RouteParse
  | [], s => s
  | tok :: rest, s =>
    match tok with
    | .stop => s
    | .newRec nm w => defAddRoutesLoop env special noobstruct rest (routeNewStep env special nm w s)
    | .viaRef nm =>
      defAddRoutesLoop env special noobstruct rest (routeViaStep env special noobstruct nm s)
    | .coord cx cy =>
      defAddRoutesLoop env special noobstruct rest (routeCoordStep env special noobstruct cx cy s)

/-- `remove_top_route`; modelled from the spec (the function lives outside
src/): deletes the most recently added route from the net's route list. -/
def removeTopRoute (net : RNet) : RNet :=
  { net with routes := net.routes.tail }

/-- The stub-route check that ends `DefAddRoutes` (def.c 580–593): if the
route just built is flagged for re-check and consists of one segment
exactly one track long, delete it. -/
def defRoutesStubCheck (s : RouteParse) : RouteParse :=
  if s.active then
    match s.net.routes with
    | [] => s
    | r :: _ =>
      if r.rtCheck then
        match r.segments with
        | [seg] =>
          let ix := |seg.x1 - seg.x2|
          let iy := |seg.y1 - seg.y2|
          if (ix = 0 ∧ iy = 1) ∨ (ix = 1 ∧ iy = 0) then
            { s with net := removeTopRoute s.net }
          else s
        | _ => s
      else s
  else s

/-- The initial local state of `DefAddRoutes` for a given net. -/
def routeParse0 (net : RNet) : RouteParse :=
  ⟨false, 0, 0, 0, 0, -1, -1, 0, false, net, []⟩

/-- `DefAddRoutes` (def.c 220–596) at parsed-token granularity. -/
def DefAddRoutes (env : RouteEnv) (special : Bool) (net : RNet)
    (toks : List RouteTok) : RouteParse :=
  defRoutesStubCheck
    (defAddRoutesLoop env special (noObstruct special net) toks (routeParse0 net))

/-! ## Concrete example states used by witnesses and counterexamples -/

/-- A technology state with no layer records and equal pitches of 2. -/
def lefStFallback : LefState := ⟨[], 2, 2, fun _ => 0, 1⟩

/-- A route-layer record "M1" on layer 0. -/
def m1rec : LefLayer :=
  ⟨"M1", 0, 0, LefClass.CLASS_ROUTE, ⟨1, [], 2, 2, 0, 0, false, 0⟩,
   ⟨⟨0, 0, 0, 0, 0⟩, [], false⟩⟩

/-- A route-layer record "M2" on layer 1. -/
def m2rec : LefLayer :=
  ⟨"M2", 1, 0, LefClass.CLASS_ROUTE, ⟨1, [], 2, 2, 0, 0, false, 0⟩,
   ⟨⟨0, 0, 0, 0, 0⟩, [], false⟩⟩

/-- A via record between layers 0 and 1, square on both metal layers. -/
def via01rec : LefLayer :=
  ⟨"via12", 10, 0, LefClass.CLASS_VIA, ⟨0, [], 0, 0, 0, 0, false, 0⟩,
   ⟨⟨0, 0, 1, 1, 1⟩, [⟨0, 0, 1, 1, 0⟩], false⟩⟩

/-- Technology state holding the two routing layers and the square via. -/
def assignStExample : AssignState :=
  ⟨[m1rec, m2rec, via01rec], none, ⟨fun _ => none, fun _ => none, fun _ => none, fun _ => none⟩⟩

/-- Degenerate track-state start for the Scenario B computation. -/
def trackSt0 : DefTrackState :=
  ⟨fun _ => none, fun _ => false, 0, 0, 0, 0, 0, 0, 1⟩

/-- The die area used in the Scenario B computation. -/
def dieareaB : DSeg := ⟨0, 0, 0, 0, 0⟩

/-- Scenario B of the specification: `TRACKS X 0 DO 10 STEP 5 LAYER M1`
after `UNITS 100`, processed by the DIEAREA seed, the TRACKS statement
and the final fallback. -/
def scenarioB : DefTrackState :=
  defFinalBounds dieareaB
    (defReadTracksStmt 'x' 0 10 5 0 100 (defReadDieArea dieareaB trackSt0))

/-- A pin-reader state over the single-route-layer fallback technology. -/
def pinStExample : PinState := ⟨lefStFallback, []⟩

/-- An aliased technology list: two `LefInfo` slots referencing the same
"M1" record (the configuration `LefRedefined`'s split branch serves). -/
def aliasSt : LefAliasState := ⟨fun _ => m1rec, [0, 0], 1⟩

/-- Redefinition of "M1" on the aliased state; the uninitialised name of
the freshly malloc'd record is rendered by the empty string. -/
def aliasRun : ℕ × LefAliasState := LefRedefined aliasSt 0 "M1" ""

/-- A SPECIALNETS call defining only the power net, followed by a NETS
call defining two regular nets. -/
def netsRun1 : NetsState := DefReadNets true (some "VDD") none [("VDD", 0)] ⟨[], 0⟩

/-- The regular NETS call entered after the special one. -/
def netsRun2 : NetsState :=
  DefReadNets false (some "VDD") none [("netA", 1), ("netB", 1)] netsRun1

/-- Environment for route-statement examples: one routing layer "M1",
track pitch 1 in both axes, origin bounds, unit scale. -/
def envC8 : RouteEnv := ⟨⟨[m1rec], 1, 1, fun _ => 0, 1⟩, 0, 0, 1⟩

/-- A regular net (not power/ground, not ignored). -/
def netC8 : RNet := ⟨"mynet", 5, false, []⟩

/-- A route statement: one wire on M1 from (0,0) to (0,1), exactly one
track long, snapping cleanly onto the grid. -/
def toksC8 : List RouteTok :=
  [RouteTok.newRec "M1" 0, RouteTok.coord (some 0) (some 0),
   RouteTok.coord (some 0) (some 1), RouteTok.stop]

/-- A route statement whose first point sits 0.4 pitches off the grid, so
the route is flagged for re-check, and whose single wire is one track
long. -/
def toksC8flag : List RouteTok :=
  [RouteTok.newRec "M1" 0, RouteTok.coord (some (2/5)) (some 0),
   RouteTok.coord (some (2/5)) (some 1), RouteTok.stop]

/-- The crossing contribution of one edge at ray height `py`, ignoring
the x position: ±1 when the edge is vertical and its y-span strictly
contains `py`. -/
def crossTerm (py : ℚ) (e : PolyEdge) : ℤ :=
  if e.1.x = e.2.x ∧ ((e.1.y < py ∧ py < e.2.y) ∨ (e.2.y < py ∧ py < e.1.y)) then
    (if e.1.y < e.2.y then 1 else -1)
  else 0

/-- A 10x10 square on layer 0, listed counterclockwise from the origin
(the OBS/polygon example of the spec rendered as a point list). -/
def sqPts : List DPoint :=
  [⟨0, 0, 0⟩, ⟨10, 0, 0⟩, ⟨10, 10, 0⟩, ⟨0, 10, 0⟩]

/-! # Theorems -/

/-! ## List and closure facts for the polygon decomposition -/

/-- The defining equation of `closePath` on a nonempty list. -/
theorem closePath_cons (p : DPoint) (rest : List DPoint) :
    closePath (p :: rest) =
      if ((p :: rest).getLast (by simp)).x = p.x ∧ ((p :: rest).getLast (by simp)).y = p.y
      then p :: rest else (p :: rest) ++ [⟨p.x, p.y, p.layer⟩] := rfl

/-- Closing a nonempty path yields a nonempty path. -/
theorem closePath_ne_nil (p : DPoint) (rest : List DPoint) : closePath (p :: rest) ≠ [] := by
  rw [closePath_cons]
  split <;> simp

/-- The head survives path closure. -/
theorem closePath_head (p : DPoint) (rest : List DPoint) :
    ∃ t, closePath (p :: rest) = p :: t := by
  rw [closePath_cons]
  split
  · exact ⟨rest, rfl⟩
  · exact ⟨rest ++ [⟨p.x, p.y, p.layer⟩], by simp⟩

/-- After closure the last point has the head's x and y. -/
theorem closePath_last (p : DPoint) (rest : List DPoint) (h : closePath (p :: rest) ≠ []) :
    ((closePath (p :: rest)).getLast h).x = p.x ∧
    ((closePath (p :: rest)).getLast h).y = p.y := by
  revert h
  rw [closePath_cons]
  split
  · intro h
    rename_i hc
    exact hc
  · intro h
    rw [List.getLast_append]
    simp

/-- The first components of `l.zip l.tail` are exactly `l.dropLast`. -/
theorem zip_tail_fst : ∀ (l : List DPoint), (l.zip l.tail).map Prod.fst = l.dropLast
  | [] => rfl
  | [_] => rfl
  | a :: b :: t => by
    have ih := zip_tail_fst (b :: t)
    simp only [List.zip, List.tail_cons] at ih ⊢
    simp only [List.zipWith_cons_cons, List.map_cons, ih]
    rfl

/-- Telescoping sum of step differences along a path. -/
theorem stepTerm_telescope (py : ℚ) :
    ∀ (l : List DPoint) (h : l ≠ []),
      ((l.zip l.tail).map fun e => stepTerm py e.2 - stepTerm py e.1).sum =
        stepTerm py (l.getLast h) - stepTerm py (l.head h)
  | [], h => absurd rfl h
  | [a], _ => by simp
  | a :: b :: t, _ => by
    have ih := stepTerm_telescope py (b :: t) (by simp)
    simp only [List.zip, List.tail_cons, List.zipWith_cons_cons, List.map_cons,
      List.sum_cons] at ih ⊢
    rw [ih]
    rw [List.getLast_cons_cons]
    simp only [List.head_cons]
    ring

/-- The winding contribution is the crossing contribution gated on the
edge lying strictly left of `px`. -/
theorem windTerm_eq (px py : ℚ) (e : PolyEdge) :
    windTerm px py e = if e.1.x < px then crossTerm py e else 0 := by
  unfold windTerm crossTerm
  split_ifs <;> first | rfl | (exfalso; tauto)

/-- For a Manhattan edge at a generic ray height, the crossing
contribution telescopes. -/
theorem crossTerm_eq_step (py : ℚ) (e : PolyEdge)
    (hman : e.1.y = e.2.y ∨ e.1.x = e.2.x) (hg1 : py ≠ e.1.y) (hg2 : py ≠ e.2.y) :
    crossTerm py e = stepTerm py e.2 - stepTerm py e.1 := by
  rcases hman with hy | hx
  · have hA : ¬ (e.1.x = e.2.x ∧
        ((e.1.y < py ∧ py < e.2.y) ∨ (e.2.y < py ∧ py < e.1.y))) := by
      rintro ⟨-, ⟨u, v⟩ | ⟨u, v⟩⟩ <;> linarith
    unfold crossTerm stepTerm
    rw [if_neg hA, hy]
    simp
  · unfold crossTerm stepTerm
    rcases lt_or_gt_of_ne hg1 with hA | hA <;> rcases lt_or_gt_of_ne hg2 with hB | hB
    · have hc : ¬ (e.1.x = e.2.x ∧
          ((e.1.y < py ∧ py < e.2.y) ∨ (e.2.y < py ∧ py < e.1.y))) := by
        rintro ⟨-, ⟨u, v⟩ | ⟨u, v⟩⟩ <;> linarith
      rw [if_neg hc, if_pos hB, if_pos hA]
      norm_num
    · rw [if_pos ⟨hx, Or.inr ⟨hB, hA⟩⟩, if_neg (show ¬ e.1.y < e.2.y by linarith),
        if_neg (show ¬ py < e.2.y by linarith), if_pos hA]
      norm_num
    · rw [if_pos ⟨hx, Or.inl ⟨hA, hB⟩⟩, if_pos (show e.1.y < e.2.y by linarith),
        if_pos hB, if_neg (show ¬ py < e.1.y by linarith)]
      norm_num
    · have hc : ¬ (e.1.x = e.2.x ∧
          ((e.1.y < py ∧ py < e.2.y) ∨ (e.2.y < py ∧ py < e.1.y))) := by
        rintro ⟨-, ⟨u, v⟩ | ⟨u, v⟩⟩ <;> linarith
      rw [if_neg hc, if_neg (show ¬ py < e.2.y by linarith),
        if_neg (show ¬ py < e.1.y by linarith)]
      norm_num

/-- For a Manhattan edge whose endpoint heights avoid the open span
`(a, b)`, the scan's wrap summand on the span equals the crossing
contribution at any ray height inside the span. -/
theorem spanSign_eq_crossTerm (a b py : ℚ) (e : PolyEdge)
    (hman : e.1.y = e.2.y ∨ e.1.x = e.2.x)
    (hpy1 : a < py) (hpy2 : py < b)
    (h1 : e.1.y ≤ a ∨ b ≤ e.1.y) (h2 : e.2.y ≤ a ∨ b ≤ e.2.y) :
    spanSign a b e = crossTerm py e := by
  rcases lt_trichotomy e.1.y e.2.y with hlt | heq | hgt
  · have hvert : e.1.x = e.2.x := by
      rcases hman with hy | hx
      · exact absurd hy (ne_of_lt hlt)
      · exact hx
    have hdir : edgeDir e = REDGE := by
      unfold edgeDir
      rw [if_neg (ne_of_lt hlt), if_pos hlt]
    have hiff : (e.1.y ≤ a ∧ b ≤ e.2.y) ↔ (e.1.y < py ∧ py < e.2.y) := by
      constructor
      · rintro ⟨u, v⟩
        exact ⟨by linarith, by linarith⟩
      · rintro ⟨u, v⟩
        constructor
        · rcases h1 with h | h
          · exact h
          · linarith
        · rcases h2 with h | h
          · linarith
          · exact h
    unfold spanSign crossTerm lefCross edgeSign
    rw [hdir]
    simp only [REDGE, FEDGE, show ((1 : ℤ) = 1) = True from by norm_num, if_true,
      decide_eq_true_eq]
    by_cases hc : e.1.y ≤ a ∧ b ≤ e.2.y
    · rw [if_pos hc, if_pos ⟨hvert, Or.inl (hiff.mp hc)⟩, if_pos hlt]
    · rw [if_neg hc, if_neg ?_]
      rintro ⟨-, hcc | hcc⟩
      · exact hc (hiff.mpr hcc)
      · rcases hcc with ⟨u, v⟩
        linarith
  · have hdir : edgeDir e = HEDGE := by
      unfold edgeDir
      rw [if_pos heq]
    have hA : ¬ (e.1.x = e.2.x ∧
        ((e.1.y < py ∧ py < e.2.y) ∨ (e.2.y < py ∧ py < e.1.y))) := by
      rintro ⟨-, ⟨u, v⟩ | ⟨u, v⟩⟩ <;> linarith
    unfold spanSign crossTerm lefCross
    rw [hdir, if_neg hA]
    simp [REDGE, FEDGE, HEDGE]
  · have hvert : e.1.x = e.2.x := by
      rcases hman with hy | hx
      · exact absurd hy (ne_of_gt hgt)
      · exact hx
    have hdir : edgeDir e = FEDGE := by
      unfold edgeDir
      rw [if_neg (ne_of_gt hgt), if_neg (not_lt.mpr (le_of_lt hgt))]
    have hiff : (e.2.y ≤ a ∧ b ≤ e.1.y) ↔ (e.2.y < py ∧ py < e.1.y) := by
      constructor
      · rintro ⟨u, v⟩
        exact ⟨by linarith, by linarith⟩
      · rintro ⟨u, v⟩
        constructor
        · rcases h2 with h | h
          · exact h
          · linarith
        · rcases h1 with h | h
          · linarith
          · exact h
    unfold spanSign crossTerm lefCross edgeSign
    rw [hdir]
    simp only [REDGE, FEDGE, show ((-1 : ℤ) = 1) = False from by norm_num,
      show ((-1 : ℤ) = -1) = True from by norm_num, if_false, if_true, decide_eq_true_eq]
    by_cases hc : e.2.y ≤ a ∧ b ≤ e.1.y
    · rw [if_pos hc, if_pos ⟨hvert, Or.inr (hiff.mp hc)⟩, if_neg (not_lt.mpr (le_of_lt hgt))]
    · rw [if_neg hc, if_neg ?_]
      rintro ⟨-, hcc | hcc⟩
      · rcases hcc with ⟨u, v⟩
        linarith
      · exact hc (hiff.mpr hcc)


/-! ## Facts about the sorted span list -/

/-- The distinct sorted vertex heights are strictly sorted. -/
theorem spanYs_sorted (pl : List DPoint) : (spanYs pl).Pairwise (· < ·) := by
  have hs : ((((edgesOf pl).map fun e => e.1.y).insertionSort (· ≤ ·))).Sorted (· ≤ ·) :=
    List.sorted_insertionSort (· ≤ ·) _
  have hle : (spanYs pl).Pairwise (· ≤ ·) :=
    hs.sublist (List.dedup_sublist _)
  have hnd : (spanYs pl).Nodup := List.nodup_dedup _
  exact (hle.and hnd).imp fun h => lt_of_le_of_ne h.1 h.2

/-- Membership in the span list is membership among vertex heights. -/
theorem spanYs_mem (pl : List DPoint) (y : ℚ) :
    y ∈ spanYs pl ↔ ∃ e ∈ edgesOf pl, y = e.1.y := by
  unfold spanYs
  rw [List.mem_dedup, (List.perm_insertionSort _ _).mem_iff, List.mem_map]
  constructor
  · rintro ⟨e, he, hey⟩
    exact ⟨e, he, hey.symm⟩
  · rintro ⟨e, he, hey⟩
    exact ⟨e, he, hey.symm⟩

/-- A consecutive pair of a strictly sorted list is increasing and has no
list element strictly between its components. -/
theorem sorted_pair_lt :
    ∀ {l : List ℚ}, l.Pairwise (· < ·) → ∀ {a b : ℚ}, (a, b) ∈ l.zip l.tail →
      a < b ∧ ∀ c ∈ l, ¬ (a < c ∧ c < b) := by
  intro l
  induction l with
  | nil => intro _ a b hab; simp at hab
  | cons x t ih =>
    intro h a b hab
    cases t with
    | nil => simp at hab
    | cons y t2 =>
      simp only [List.tail_cons, List.zip_cons_cons] at hab
      rcases List.mem_cons.mp hab with heq | hab2
      · injection heq with hax hby
        refine ⟨?_, ?_⟩
        · rw [hax, hby]
          exact (List.pairwise_cons.mp h).1 y (by simp)
        · intro c hc hcc
          rw [hax, hby] at hcc
          rcases List.mem_cons.mp hc with hcx | hct
          · rw [hcx] at hcc
            exact lt_irrefl _ hcc.1
          · rcases List.mem_cons.mp hct with hcy | hct2
            · rw [hcy] at hcc
              exact lt_irrefl _ hcc.2
            · have : y < c := (List.pairwise_cons.mp (List.pairwise_cons.mp h).2).1 c hct2
              linarith [hcc.2]
      · have h2 := (List.pairwise_cons.mp h).2
        have hres := ih h2 (by simpa using hab2)
        refine ⟨hres.1, ?_⟩
        intro c hc hcc
        rcases List.mem_cons.mp hc with hcx | hct
        · subst hcx
          have ha : a ∈ y :: t2 := (List.of_mem_zip hab2).1
          have : c < a := (List.pairwise_cons.mp h).1 a ha
          linarith [hcc.1]
        · exact hres.2 c hct hcc

/-- A value strictly between two members of a strictly sorted list, and
not itself a member, lies strictly inside some consecutive pair. -/
theorem sorted_pair_cover :
    ∀ {l : List ℚ}, l.Pairwise (· < ·) → ∀ {c d py : ℚ},
      c ∈ l → d ∈ l → c < py → py < d → py ∉ l →
      ∃ p ∈ l.zip l.tail, p.1 < py ∧ py < p.2 := by
  intro l
  induction l with
  | nil => intro _ c d py hc; simp at hc
  | cons x t ih =>
    intro h c d py hc hd h1 h2 hpy
    cases t with
    | nil =>
      rcases List.mem_singleton.mp hc with rfl
      rcases List.mem_singleton.mp hd with rfl
      linarith
    | cons y t2 =>
      by_cases hpy2 : py < y
      · have hcx : c = x := by
          rcases List.mem_cons.mp hc with hcx | hct
          · exact hcx
          · have : y ≤ c := by
              rcases List.mem_cons.mp hct with hcy | hct2
              · exact le_of_eq hcy.symm
              · exact le_of_lt ((List.pairwise_cons.mp (List.pairwise_cons.mp h).2).1 c hct2)
            linarith
        subst hcx
        exact ⟨(c, y), by simp [List.zip_cons_cons], h1, hpy2⟩
      · have hyy : y < py := by
          rcases lt_or_eq_of_le (not_lt.mp hpy2) with hlt | heq
          · exact hlt
          · exact absurd (heq ▸ List.mem_cons_of_mem x (by simp)) hpy
        have hd2 : d ∈ y :: t2 := by
          rcases List.mem_cons.mp hd with hdx | hdt
          · subst hdx
            have : d < y := (List.pairwise_cons.mp h).1 y (by simp)
            linarith
          · exact hdt
        have hres := ih (List.pairwise_cons.mp h).2 (List.mem_cons_self y t2) hd2 hyy h2
          (fun hmem => hpy (List.mem_cons_of_mem x hmem))
        rcases hres with ⟨p, hp, hp1, hp2⟩
        exact ⟨p, by simp only [List.tail_cons, List.zip_cons_cons]; exact List.mem_cons_of_mem _ hp, hp1, hp2⟩

/-- Consecutive pairs of a strictly sorted list are themselves ordered:
an earlier pair ends no later than a later pair begins. -/
theorem sorted_pairs_chain :
    ∀ {l : List ℚ}, l.Pairwise (· < ·) →
      (l.zip l.tail).Pairwise (fun p q => p.2 ≤ q.1) := by
  intro l
  induction l with
  | nil => intro _; simp
  | cons x t ih =>
    intro h
    cases t with
    | nil => simp
    | cons y t2 =>
      simp only [List.tail_cons, List.zip_cons_cons]
      refine List.pairwise_cons.mpr ⟨?_, ih (List.pairwise_cons.mp h).2⟩
      intro q hq
      obtain ⟨q1, q2⟩ := q
      have hq1 : q1 ∈ y :: t2 := (List.of_mem_zip hq).1
      rcases List.mem_cons.mp hq1 with h1 | h1
      · exact le_of_eq h1.symm
      · exact le_of_lt ((List.pairwise_cons.mp (List.pairwise_cons.mp h).2).1 _ h1)

/-! ## Scan-loop lemmas -/

instance : IsTotal PolyEdge lowX := ⟨fun u v => le_total u.1.x v.1.x⟩

instance : IsTrans PolyEdge lowX := ⟨fun u v w h1 h2 => le_trans h1 h2⟩

/-- One unfolding step of the scan loop. -/
theorem lefScanSpan_cons (a b : ℚ) (w : ℤ) (xbot : ℚ) (e : PolyEdge)
    (rest : List PolyEdge) :
    lefScanSpan a b w xbot (e :: rest) =
      (if lefCross e (edgeDir e) a b then
        (if w + edgeSign (edgeDir e) = 0 then
          (if (if w = 0 then e.1.x else xbot) = e.1.x then
            lefScanSpan a b (w + edgeSign (edgeDir e))
              (if w = 0 then e.1.x else xbot) rest
           else ⟨if w = 0 then e.1.x else xbot, a, e.1.x, b, e.1.layer⟩ ::
                lefScanSpan a b (w + edgeSign (edgeDir e))
                  (if w = 0 then e.1.x else xbot) rest)
         else lefScanSpan a b (w + edgeSign (edgeDir e))
                (if w = 0 then e.1.x else xbot) rest)
       else lefScanSpan a b w (if w = 0 then e.1.x else xbot) rest) := rfl

/-- Span-sum over a cons. -/
theorem spanSum_cons (a b : ℚ) (e : PolyEdge) (rest : List PolyEdge) :
    spanSum a b (e :: rest) = spanSign a b e + spanSum a b rest := by
  simp [spanSum]

/-- Gated span-sum over a cons. -/
theorem spanSumBefore_cons (a b px : ℚ) (e : PolyEdge) (rest : List PolyEdge) :
    spanSumBefore a b px (e :: rest) =
      (if e.1.x < px then spanSign a b e else 0) + spanSumBefore a b px rest := by
  unfold spanSumBefore
  rw [List.filter_cons]
  by_cases h : e.1.x < px
  · simp [h]
  · simp [h]

/-- The gated span-sum vanishes when every edge starts right of the ray
abscissa. -/
theorem spanSumBefore_zero (a b px : ℚ) (es : List PolyEdge)
    (h : ∀ e ∈ es, px < e.1.x) : spanSumBefore a b px es = 0 := by
  unfold spanSumBefore
  have : es.filter (fun e => decide (e.1.x < px)) = [] := by
    rw [List.filter_eq_nil]
    intro e he
    simp only [decide_eq_true_eq, not_lt]
    exact le_of_lt (h e he)
  rw [this]
  rfl

/-- A sum over a filtered list equals a sum of gated summands. -/
theorem sum_filter_map_eq (p : PolyEdge → Bool) (f : PolyEdge → ℤ) :
    ∀ l : List PolyEdge,
      ((l.filter p).map f).sum = (l.map fun x => if p x then f x else 0).sum := by
  intro l
  induction l with
  | nil => rfl
  | cons x t ih =>
    rw [List.filter_cons]
    by_cases h : p x
    · simp only [h, if_true, List.map_cons, List.sum_cons, ih]
    · simp [h, ih]

/-- An edge is assigned a direction exactly when it is Manhattan. -/
theorem lefOrientEdge_isSome (e : PolyEdge) :
    (lefOrientEdge e).isSome ↔ (e.1.y = e.2.y ∨ e.1.x = e.2.x) := by
  unfold lefOrientEdge
  split_ifs <;> simp_all

/-- An edge's wrap increment is never zero. -/
theorem edgeSign_ne_zero (d : ℤ) : edgeSign d ≠ 0 := by
  unfold edgeSign
  split_ifs <;> norm_num

/-- Every rectangle the scan emits spans exactly the current y-range, has
strictly positive width, ends at some edge abscissa, and begins either at
the inherited open-region abscissa (only possible with nonzero wrap) or at
some edge abscissa. -/
theorem lefScanSpan_shape (a b : ℚ) :
    ∀ (es : List PolyEdge) (w : ℤ) (xbot : ℚ),
      es.Pairwise lowX →
      (w ≠ 0 → ∀ e ∈ es, xbot ≤ e.1.x) →
      ∀ r ∈ lefScanSpan a b w xbot es,
        r.y1 = a ∧ r.y2 = b ∧ r.x1 < r.x2 ∧ (∃ e ∈ es, r.x2 = e.1.x) ∧
          ((w ≠ 0 ∧ r.x1 = xbot) ∨ ∃ e ∈ es, r.x1 = e.1.x) := by
  intro es
  induction es with
  | nil =>
    intro w xbot _ _ r hr
    simp [lefScanSpan] at hr
  | cons e rest ih =>
    intro w xbot hsort hinv r hr
    rw [lefScanSpan_cons] at hr
    by_cases hcr : lefCross e (edgeDir e) a b
    · rw [if_pos hcr] at hr
      by_cases hw2 : w + edgeSign (edgeDir e) = 0
      · rw [if_pos hw2] at hr
        have hwne : w ≠ 0 := by
          intro h
          rw [h, zero_add] at hw2
          exact edgeSign_ne_zero _ hw2
        rw [if_neg hwne] at hr
        by_cases hxe : xbot = e.1.x
        · rw [if_pos hxe] at hr
          have hres := ih (w + edgeSign (edgeDir e)) xbot
            (List.pairwise_cons.mp hsort).2
            (fun hne => absurd hw2 hne) r hr
          refine ⟨hres.1, hres.2.1, hres.2.2.1, ?_, ?_⟩
          · obtain ⟨e2, he2, hx⟩ := hres.2.2.2.1
            exact ⟨e2, List.mem_cons_of_mem _ he2, hx⟩
          · rcases hres.2.2.2.2 with ⟨hne, -⟩ | ⟨e2, he2, hx⟩
            · exact absurd hw2 hne
            · exact Or.inr ⟨e2, List.mem_cons_of_mem _ he2, hx⟩
        · rw [if_neg hxe] at hr
          rcases List.mem_cons.mp hr with rfl | hr2
          · refine ⟨rfl, rfl, ?_, ⟨e, List.mem_cons_self e rest, rfl⟩,
              Or.inl ⟨hwne, rfl⟩⟩
            exact lt_of_le_of_ne ((hinv hwne) e (List.mem_cons_self e rest)) hxe
          · have hres := ih (w + edgeSign (edgeDir e)) xbot
              (List.pairwise_cons.mp hsort).2
              (fun hne => absurd hw2 hne) r hr2
            refine ⟨hres.1, hres.2.1, hres.2.2.1, ?_, ?_⟩
            · obtain ⟨e2, he2, hx⟩ := hres.2.2.2.1
              exact ⟨e2, List.mem_cons_of_mem _ he2, hx⟩
            · rcases hres.2.2.2.2 with ⟨hne, -⟩ | ⟨e2, he2, hx⟩
              · exact absurd hw2 hne
              · exact Or.inr ⟨e2, List.mem_cons_of_mem _ he2, hx⟩
      · rw [if_neg hw2] at hr
        by_cases hw0 : w = 0
        · rw [if_pos hw0] at hr
          have hres := ih (w + edgeSign (edgeDir e)) e.1.x
            (List.pairwise_cons.mp hsort).2
            (fun _ e2 he2 => (List.pairwise_cons.mp hsort).1 e2 he2) r hr
          refine ⟨hres.1, hres.2.1, hres.2.2.1, ?_, ?_⟩
          · obtain ⟨e2, he2, hx⟩ := hres.2.2.2.1
            exact ⟨e2, List.mem_cons_of_mem _ he2, hx⟩
          · rcases hres.2.2.2.2 with ⟨-, hx⟩ | ⟨e2, he2, hx⟩
            · exact Or.inr ⟨e, List.mem_cons_self e rest, hx⟩
            · exact Or.inr ⟨e2, List.mem_cons_of_mem _ he2, hx⟩
        · rw [if_neg hw0] at hr
          have hres := ih (w + edgeSign (edgeDir e)) xbot
            (List.pairwise_cons.mp hsort).2
            (fun _ e2 he2 => hinv hw0 e2 (List.mem_cons_of_mem _ he2)) r hr
          refine ⟨hres.1, hres.2.1, hres.2.2.1, ?_, ?_⟩
          · obtain ⟨e2, he2, hx⟩ := hres.2.2.2.1
            exact ⟨e2, List.mem_cons_of_mem _ he2, hx⟩
          · rcases hres.2.2.2.2 with ⟨-, hx⟩ | ⟨e2, he2, hx⟩
            · exact Or.inl ⟨hw0, hx⟩
            · exact Or.inr ⟨e2, List.mem_cons_of_mem _ he2, hx⟩
    · rw [if_neg hcr] at hr
      by_cases hw0 : w = 0
      · rw [if_pos hw0] at hr
        have hres := ih w e.1.x (List.pairwise_cons.mp hsort).2
          (fun hne => absurd hw0 hne) r hr
        refine ⟨hres.1, hres.2.1, hres.2.2.1, ?_, ?_⟩
        · obtain ⟨e2, he2, hx⟩ := hres.2.2.2.1
          exact ⟨e2, List.mem_cons_of_mem _ he2, hx⟩
        · rcases hres.2.2.2.2 with ⟨hne, -⟩ | ⟨e2, he2, hx⟩
          · exact absurd hw0 hne
          · exact Or.inr ⟨e2, List.mem_cons_of_mem _ he2, hx⟩
      · rw [if_neg hw0] at hr
        have hres := ih w xbot (List.pairwise_cons.mp hsort).2
          (fun _ e2 he2 => hinv hw0 e2 (List.mem_cons_of_mem _ he2)) r hr
        refine ⟨hres.1, hres.2.1, hres.2.2.1, ?_, ?_⟩
        · obtain ⟨e2, he2, hx⟩ := hres.2.2.2.1
          exact ⟨e2, List.mem_cons_of_mem _ he2, hx⟩
        · rcases hres.2.2.2.2 with ⟨-, hx⟩ | ⟨e2, he2, hx⟩
          · exact Or.inl ⟨hw0, hx⟩
          · exact Or.inr ⟨e2, List.mem_cons_of_mem _ he2, hx⟩

/-- The rectangles the scan emits are ordered left to right: each ends no
later than the next begins. -/
theorem lefScanSpan_chain (a b : ℚ) :
    ∀ (es : List PolyEdge) (w : ℤ) (xbot : ℚ),
      es.Pairwise lowX →
      (w ≠ 0 → ∀ e ∈ es, xbot ≤ e.1.x) →
      (lefScanSpan a b w xbot es).Pairwise fun r s => r.x2 ≤ s.x1 := by
  intro es
  induction es with
  | nil =>
    intro w xbot _ _
    simp [lefScanSpan]
  | cons e rest ih =>
    intro w xbot hsort hinv
    rw [lefScanSpan_cons]
    by_cases hcr : lefCross e (edgeDir e) a b
    · rw [if_pos hcr]
      by_cases hw2 : w + edgeSign (edgeDir e) = 0
      · rw [if_pos hw2]
        have hwne : w ≠ 0 := by
          intro h
          rw [h, zero_add] at hw2
          exact edgeSign_ne_zero _ hw2
        rw [if_neg hwne]
        by_cases hxe : xbot = e.1.x
        · rw [if_pos hxe]
          exact ih (w + edgeSign (edgeDir e)) xbot (List.pairwise_cons.mp hsort).2
            (fun hne => absurd hw2 hne)
        · rw [if_neg hxe]
          refine List.pairwise_cons.mpr ⟨?_, ?_⟩
          · intro s hs
            have hres := lefScanSpan_shape a b rest (w + edgeSign (edgeDir e)) xbot
              (List.pairwise_cons.mp hsort).2 (fun hne => absurd hw2 hne) s hs
            rcases hres.2.2.2.2 with ⟨hne, -⟩ | ⟨e2, he2, hx⟩
            · exact absurd hw2 hne
            · rw [hx]
              exact (List.pairwise_cons.mp hsort).1 e2 he2
          · exact ih (w + edgeSign (edgeDir e)) xbot (List.pairwise_cons.mp hsort).2
              (fun hne => absurd hw2 hne)
      · rw [if_neg hw2]
        by_cases hw0 : w = 0
        · rw [if_pos hw0]
          exact ih (w + edgeSign (edgeDir e)) e.1.x (List.pairwise_cons.mp hsort).2
            (fun _ e2 he2 => (List.pairwise_cons.mp hsort).1 e2 he2)
        · rw [if_neg hw0]
          exact ih (w + edgeSign (edgeDir e)) xbot (List.pairwise_cons.mp hsort).2
            (fun _ e2 he2 => hinv hw0 e2 (List.mem_cons_of_mem _ he2))
    · rw [if_neg hcr]
      by_cases hw0 : w = 0
      · rw [if_pos hw0]
        exact ih w e.1.x (List.pairwise_cons.mp hsort).2
          (fun hne => absurd hw0 hne)
      · rw [if_neg hw0]
        exact ih w xbot (List.pairwise_cons.mp hsort).2
          (fun _ e2 he2 => hinv hw0 e2 (List.mem_cons_of_mem _ he2))

/-- The central correctness lemma of the scan loop: a ray abscissa `px`
that avoids every edge abscissa is covered by some emitted rectangle
exactly when the wrap number at `px` (the start value plus the
contributions of the edges left of `px`) is nonzero — provided the edges
are sorted, the run will end with wrap number zero, and a nonzero start
wrap owns a left boundary left of all remaining edges. -/
theorem lefScanSpan_mem_iff (a b px : ℚ) :
    ∀ (es : List PolyEdge) (w : ℤ) (xbot : ℚ),
      es.Pairwise lowX →
      (∀ e ∈ es, px ≠ e.1.x) →
      (w ≠ 0 → px ≠ xbot ∧ ∀ e ∈ es, xbot ≤ e.1.x) →
      w + spanSum a b es = 0 →
      ((∃ r ∈ lefScanSpan a b w xbot es, r.x1 ≤ px ∧ px ≤ r.x2) ↔
        (w + spanSumBefore a b px es ≠ 0 ∧ (w ≠ 0 → xbot < px))) := by
  intro es
  induction es with
  | nil =>
    intro w xbot _ _ _ htot
    constructor
    · rintro ⟨r, hr, -⟩
      simp [lefScanSpan] at hr
    · rintro ⟨hne, -⟩
      exact absurd (by simpa [spanSum, spanSumBefore] using htot) hne
  | cons e rest ih =>
    intro w xbot hsort hgen hinv htot
    have hst := (List.pairwise_cons.mp hsort).2
    have hhd := (List.pairwise_cons.mp hsort).1
    have hgt : ∀ e2 ∈ rest, px ≠ e2.1.x :=
      fun e2 he2 => hgen e2 (List.mem_cons_of_mem _ he2)
    have hgenhd : px ≠ e.1.x := hgen e (List.mem_cons_self e rest)
    rw [lefScanSpan_cons]
    rw [spanSum_cons] at htot
    rw [spanSumBefore_cons]
    by_cases hcr : lefCross e (edgeDir e) a b
    · rw [if_pos hcr]
      have hsg : spanSign a b e = edgeSign (edgeDir e) := by
        unfold spanSign
        rw [if_pos hcr]
      rw [hsg] at htot ⊢
      by_cases hw2 : w + edgeSign (edgeDir e) = 0
      · rw [if_pos hw2]
        have hwne : w ≠ 0 := by
          intro h
          rw [h, zero_add] at hw2
          exact edgeSign_ne_zero _ hw2
        rw [if_neg hwne, hw2]
        obtain ⟨hpxb, hxle⟩ := hinv hwne
        have hxeb : xbot ≤ e.1.x := hxle e (List.mem_cons_self e rest)
        have htot2 : (0 : ℤ) + spanSum a b rest = 0 := by omega
        have hIH := ih 0 xbot hst hgt (fun hne => absurd rfl hne) htot2
        by_cases hxe : xbot = e.1.x
        · rw [if_pos hxe, hIH]
          rcases lt_or_gt_of_ne hgenhd with he | he
          · have hbr : spanSumBefore a b px rest = 0 :=
              spanSumBefore_zero a b px rest
                (fun e2 he2 => lt_of_lt_of_le he (hhd e2 he2))
            rw [hbr, if_neg (not_lt.mpr (le_of_lt he))]
            constructor
            · rintro ⟨h1, -⟩
              exact (h1 (by omega)).elim
            · rintro ⟨-, h2⟩
              have := h2 hwne
              rw [hxe] at this
              exact absurd this (not_lt.mpr (le_of_lt he))
          · rw [if_pos he]
            constructor
            · rintro ⟨h1, -⟩
              refine ⟨by omega, fun _ => ?_⟩
              rw [hxe]
              exact he
            · rintro ⟨h1, -⟩
              exact ⟨by omega, fun h => absurd rfl h⟩
        · rw [if_neg hxe]
          have hsplit :
              (∃ r ∈ (⟨xbot, a, e.1.x, b, e.1.layer⟩ : DSeg) ::
                  lefScanSpan a b 0 xbot rest, r.x1 ≤ px ∧ px ≤ r.x2) ↔
                ((xbot ≤ px ∧ px ≤ e.1.x) ∨
                  (∃ r ∈ lefScanSpan a b 0 xbot rest, r.x1 ≤ px ∧ px ≤ r.x2)) := by
            constructor
            · rintro ⟨r, hr, hp⟩
              rcases List.mem_cons.mp hr with rfl | hr2
              · exact Or.inl hp
              · exact Or.inr ⟨r, hr2, hp⟩
            · rintro (hp | ⟨r, hr, hp⟩)
              · exact ⟨_, List.mem_cons_self _ _, hp⟩
              · exact ⟨r, List.mem_cons_of_mem _ hr, hp⟩
          rw [hsplit, hIH]
          rcases lt_or_gt_of_ne hgenhd with he | he
          · have hbr : spanSumBefore a b px rest = 0 :=
              spanSumBefore_zero a b px rest
                (fun e2 he2 => lt_of_lt_of_le he (hhd e2 he2))
            rw [hbr, if_neg (not_lt.mpr (le_of_lt he))]
            constructor
            · rintro (⟨hx1, -⟩ | ⟨h1, -⟩)
              · exact ⟨by omega, fun _ => lt_of_le_of_ne hx1 (Ne.symm hpxb)⟩
              · exact (h1 (by omega)).elim
            · rintro ⟨-, h2⟩
              exact Or.inl ⟨le_of_lt (h2 hwne), le_of_lt he⟩
          · rw [if_pos he]
            constructor
            · rintro (⟨-, hpe⟩ | ⟨h1, -⟩)
              · exact absurd hpe (not_le.mpr he)
              · exact ⟨by omega, fun _ => lt_of_le_of_lt hxeb he⟩
            · rintro ⟨h1, -⟩
              exact Or.inr ⟨by omega, fun h => absurd rfl h⟩
      · rw [if_neg hw2]
        have htot2 : (w + edgeSign (edgeDir e)) + spanSum a b rest = 0 := by omega
        by_cases hw0 : w = 0
        · rw [if_pos hw0]
          have hIH := ih (w + edgeSign (edgeDir e)) e.1.x hst hgt
            (fun _ => ⟨hgenhd, fun e2 he2 => hhd e2 he2⟩) htot2
          rw [hIH]
          rcases lt_or_gt_of_ne hgenhd with he | he
          · have hbr : spanSumBefore a b px rest = 0 :=
              spanSumBefore_zero a b px rest
                (fun e2 he2 => lt_of_lt_of_le he (hhd e2 he2))
            rw [hbr, if_neg (not_lt.mpr (le_of_lt he))]
            constructor
            · rintro ⟨-, h2⟩
              exact absurd (h2 hw2) (not_lt.mpr (le_of_lt he))
            · rintro ⟨h1, -⟩
              exact (h1 (by omega)).elim
          · rw [if_pos he]
            constructor
            · rintro ⟨h1, -⟩
              exact ⟨by omega, fun h => absurd hw0 h⟩
            · rintro ⟨h1, -⟩
              exact ⟨by omega, fun _ => he⟩
        · rw [if_neg hw0]
          obtain ⟨hpxb, hxle⟩ := hinv hw0
          have hIH := ih (w + edgeSign (edgeDir e)) xbot hst hgt
            (fun _ => ⟨hpxb, fun e2 he2 => hxle e2 (List.mem_cons_of_mem _ he2)⟩) htot2
          rw [hIH]
          rcases lt_or_gt_of_ne hgenhd with he | he
          · have hbr : spanSumBefore a b px rest = 0 :=
              spanSumBefore_zero a b px rest
                (fun e2 he2 => lt_of_lt_of_le he (hhd e2 he2))
            rw [hbr, if_neg (not_lt.mpr (le_of_lt he))]
            constructor
            · rintro ⟨-, h2⟩
              exact ⟨by omega, fun _ => h2 hw2⟩
            · rintro ⟨-, h2⟩
              exact ⟨by omega, fun _ => h2 hw0⟩
          · rw [if_pos he]
            constructor
            · rintro ⟨h1, h2⟩
              exact ⟨by omega, fun _ => h2 hw2⟩
            · rintro ⟨h1, h2⟩
              exact ⟨by omega, fun _ => h2 hw0⟩
    · rw [if_neg hcr]
      have hsg : spanSign a b e = 0 := by
        unfold spanSign
        rw [if_neg hcr]
      rw [hsg] at htot ⊢
      rw [zero_add] at htot
      rw [ite_self, zero_add]
      by_cases hw0 : w = 0
      · rw [if_pos hw0]
        rw [ih w e.1.x hst hgt (fun hne => absurd hw0 hne) htot]
        simp [hw0]
      · rw [if_neg hw0]
        obtain ⟨hpxb, hxle⟩ := hinv hw0
        rw [ih w xbot hst hgt
          (fun _ => ⟨hpxb, fun e2 he2 => hxle e2 (List.mem_cons_of_mem _ he2)⟩) htot]

/-- The head survives path closure (head form). -/
theorem closePath_head_eq (p : DPoint) (rest : List DPoint)
    (h : closePath (p :: rest) ≠ []) : (closePath (p :: rest)).head h = p := by
  revert h
  rw [closePath_cons]
  split
  · intro h
    rfl
  · intro h
    rfl

/-- Every edge's far endpoint height also occurs as a near endpoint height
of some edge of the closed path. -/
theorem edge_snd_y_mem (pl : List DPoint) :
    ∀ e ∈ edgesOf pl, ∃ e2 ∈ edgesOf pl, e.2.y = e2.1.y := by
  cases pl with
  | nil =>
    intro e he
    simp [edgesOf, closePath, polyEdges] at he
  | cons p rest =>
    intro e he
    have hcne := closePath_ne_nil p rest
    have hmt : e.2 ∈ (closePath (p :: rest)).tail := (List.of_mem_zip he).2
    have hmc : e.2 ∈ closePath (p :: rest) := List.mem_of_mem_tail hmt
    rw [← List.dropLast_append_getLast hcne] at hmc
    rcases List.mem_append.mp hmc with hdl | hl
    · rw [← zip_tail_fst] at hdl
      obtain ⟨e2, he2, hfst⟩ := List.mem_map.mp hdl
      exact ⟨e2, he2, by rw [← hfst]⟩
    · have h2 : e.2 = (closePath (p :: rest)).getLast hcne := List.mem_singleton.mp hl
      obtain ⟨t, hct⟩ := closePath_head p rest
      cases t with
      | nil =>
        have hed : edgesOf (p :: rest) = [] := by
          unfold edgesOf polyEdges
          rw [hct]
          rfl
        rw [hed] at he
        simp at he
      | cons q t2 =>
        refine ⟨(p, q), ?_, ?_⟩
        · unfold edgesOf polyEdges
          rw [hct]
          simp [List.zip_cons_cons]
        · rw [h2, (closePath_last p rest hcne).2]

/-- On a minimal y-span, every edge endpoint height avoids the open span. -/
theorem edge_ys_avoid (pl : List DPoint) (a b : ℚ)
    (hab : (a, b) ∈ (spanYs pl).zip (spanYs pl).tail) :
    ∀ e ∈ edgesOf pl, (e.1.y ≤ a ∨ b ≤ e.1.y) ∧ (e.2.y ≤ a ∨ b ≤ e.2.y) := by
  intro e he
  have hp := sorted_pair_lt (spanYs_sorted pl) hab
  have havoid : ∀ c ∈ spanYs pl, c ≤ a ∨ b ≤ c := by
    intro c hc
    by_cases h : c ≤ a
    · exact Or.inl h
    · right
      by_contra hb
      exact hp.2 c hc ⟨not_le.mp h, not_le.mp hb⟩
  constructor
  · exact havoid e.1.y ((spanYs_mem pl e.1.y).mpr ⟨e, he, rfl⟩)
  · obtain ⟨e2, he2, hy⟩ := edge_snd_y_mem pl e he
    rw [hy]
    exact havoid e2.1.y ((spanYs_mem pl e2.1.y).mpr ⟨e2, he2, rfl⟩)

/-- On a minimal y-span, the total wrap contribution of all edges of a
closed Manhattan path is zero. -/
theorem spanSum_zero_of_pair (pl : List DPoint) (hman : manhattan pl)
    (a b : ℚ) (hab : (a, b) ∈ (spanYs pl).zip (spanYs pl).tail) :
    spanSum a b (edgesOf pl) = 0 := by
  cases pl with
  | nil => simp [spanYs, edgesOf, closePath, polyEdges] at hab
  | cons p rest =>
    have hcne := closePath_ne_nil p rest
    have hpp := sorted_pair_lt (spanYs_sorted (p :: rest)) hab
    have hpy1 : a < (a + b) / 2 := by linarith [hpp.1]
    have hpy2 : (a + b) / 2 < b := by linarith [hpp.1]
    have havoid := edge_ys_avoid (p :: rest) a b hab
    unfold spanSum
    have hcongr : (edgesOf (p :: rest)).map (spanSign a b) =
        (edgesOf (p :: rest)).map fun e =>
          stepTerm ((a + b) / 2) e.2 - stepTerm ((a + b) / 2) e.1 := by
      apply List.map_congr_left
      intro e he
      have hg1 : (a + b) / 2 ≠ e.1.y := by
        rcases (havoid e he).1 with h | h
        · exact ne_of_gt (lt_of_le_of_lt h hpy1)
        · exact ne_of_lt (lt_of_lt_of_le hpy2 h)
      have hg2 : (a + b) / 2 ≠ e.2.y := by
        rcases (havoid e he).2 with h | h
        · exact ne_of_gt (lt_of_le_of_lt h hpy1)
        · exact ne_of_lt (lt_of_lt_of_le hpy2 h)
      rw [spanSign_eq_crossTerm a b ((a + b) / 2) e (hman e he) hpy1 hpy2
            (havoid e he).1 (havoid e he).2,
          crossTerm_eq_step ((a + b) / 2) e (hman e he) hg1 hg2]
    rw [hcongr]
    unfold edgesOf polyEdges
    rw [stepTerm_telescope ((a + b) / 2) (closePath (p :: rest)) hcne]
    unfold stepTerm
    rw [(closePath_last p rest hcne).2, closePath_head_eq p rest hcne]
    rw [sub_self]

/-- At a ray height strictly inside a minimal y-span, the winding number
equals the wrap contribution of the edges left of the ray abscissa. -/
theorem windingAt_eq_before (pl : List DPoint) (hman : manhattan pl)
    (a b px py : ℚ) (hab : (a, b) ∈ (spanYs pl).zip (spanYs pl).tail)
    (h1 : a < py) (h2 : py < b) :
    windingAt pl px py = spanSumBefore a b px (edgesOf pl) := by
  have havoid := edge_ys_avoid pl a b hab
  unfold windingAt spanSumBefore
  rw [sum_filter_map_eq]
  congr 1
  apply List.map_congr_left
  intro e he
  rw [windTerm_eq]
  by_cases hx : e.1.x < px
  · rw [if_pos hx, if_pos (decide_eq_true hx)]
    exact (spanSign_eq_crossTerm a b py e (hman e he) h1 h2
      (havoid e he).1 (havoid e he).2).symm
  · rw [if_neg hx, if_neg (by simpa using hx)]

/-- The x-sorted edge list is a permutation of the edge list. -/
theorem sortedEdgesOf_perm (pl : List DPoint) :
    (sortedEdgesOf pl).Perm (edgesOf pl) :=
  List.perm_insertionSort lowX (edgesOf pl)

/-- The x-sorted edge list is sorted by low x. -/
theorem sortedEdgesOf_sorted (pl : List DPoint) :
    (sortedEdgesOf pl).Pairwise lowX :=
  List.sorted_insertionSort lowX (edgesOf pl)

/-- Sorting the edges preserves the total wrap contribution. -/
theorem spanSum_sorted (pl : List DPoint) (a b : ℚ) :
    spanSum a b (sortedEdgesOf pl) = spanSum a b (edgesOf pl) := by
  unfold spanSum
  exact ((sortedEdgesOf_perm pl).map _).sum_eq

/-- Sorting the edges preserves the gated wrap contribution. -/
theorem spanSumBefore_sorted (pl : List DPoint) (a b px : ℚ) :
    spanSumBefore a b px (sortedEdgesOf pl) = spanSumBefore a b px (edgesOf pl) := by
  unfold spanSumBefore
  exact ((((sortedEdgesOf_perm pl).filter _)).map _).sum_eq

/-- A flat map is pairwise when each block is pairwise and the generating
list is pairwise blockwise. -/
theorem pairwise_flatMap_of {α β : Type} (R : β → β → Prop) (f : α → List β) :
    ∀ l : List α, (∀ x ∈ l, (f x).Pairwise R) →
      (l.Pairwise fun x y => ∀ u ∈ f x, ∀ v ∈ f y, R u v) →
      (l.flatMap f).Pairwise R := by
  intro l
  induction l with
  | nil =>
    intro _ _
    simp
  | cons x t ih =>
    intro hin hcross
    rw [List.flatMap_cons]
    apply List.pairwise_append.mpr
    refine ⟨hin x (List.mem_cons_self x t),
      ih (fun y hy => hin y (List.mem_cons_of_mem _ hy))
        (List.pairwise_cons.mp hcross).2, ?_⟩
    intro u hu v hv
    obtain ⟨y, hy, hvy⟩ := List.mem_flatMap.mp hv
    exact (List.pairwise_cons.mp hcross).1 y hy u hu v hvy

/-- One unfolding of the decomposition on a nonempty list. -/
theorem LefPolygonToRects_cons (p : DPoint) (rest : List DPoint) :
    LefPolygonToRects (p :: rest) =
      (if (edgesOf (p :: rest)).length < 4 then []
       else if (edgesOf (p :: rest)).all (fun e => (lefOrientEdge e).isSome) then
        ((spanYs (p :: rest)).zip (spanYs (p :: rest)).tail).flatMap
          fun ab => lefScanSpan ab.1 ab.2 0 0 (sortedEdgesOf (p :: rest))
       else []) := rfl

/-- For a long-enough Manhattan polygon the decomposition is exactly the
per-span scan, flat-mapped over the minimal y-spans. -/
theorem LefPolygonToRects_eq (p : DPoint) (rest : List DPoint)
    (hman : manhattan (p :: rest)) (hlen : ¬ (edgesOf (p :: rest)).length < 4) :
    LefPolygonToRects (p :: rest) =
      ((spanYs (p :: rest)).zip (spanYs (p :: rest)).tail).flatMap
        fun ab => lefScanSpan ab.1 ab.2 0 0 (sortedEdgesOf (p :: rest)) := by
  have hall : (edgesOf (p :: rest)).all (fun e => (lefOrientEdge e).isSome) = true := by
    rw [List.all_eq_true]
    intro e he
    rw [lefOrientEdge_isSome]
    exact hman e he
  rw [LefPolygonToRects_cons, if_neg hlen, if_pos hall]

/-- C1: for a closed Manhattan polygon given as an ordered point list
(auto-closed when the last point differs from the first), the rectangles
emitted by `LefPolygonToRects` are pairwise non-overlapping, every emitted
rectangle has strictly positive width and height (zero-width spans are
skipped), and at every point whose coordinates avoid the vertex abscissas
and heights, some emitted rectangle covers the point exactly when the
signed wrap count of the polygon around it is nonzero — so the union of
the rectangles is exactly the region the polygon encloses, with no gaps,
no overlaps and no spurious slivers. -/
theorem C1_polygon_decomposition (pl : List DPoint)
    (hman : manhattan pl) (hlen : ¬ (edgesOf pl).length < 4) :
    ((LefPolygonToRects pl).Pairwise fun r s => ¬ rectOverlap r s) ∧
    (∀ r ∈ LefPolygonToRects pl, r.x1 < r.x2 ∧ r.y1 < r.y2) ∧
    (∀ px py, genericX pl px → genericY pl py →
      ((∃ r ∈ LefPolygonToRects pl, inRect px py r) ↔ windingAt pl px py ≠ 0)) := by
  cases pl with
  | nil => exact absurd (by decide) hlen
  | cons p rest =>
    rw [LefPolygonToRects_eq p rest hman hlen]
    have hsorted := sortedEdgesOf_sorted (p :: rest)
    have hys := spanYs_sorted (p :: rest)
    refine ⟨?_, ?_, ?_⟩
    · apply pairwise_flatMap_of
      · intro ab hab
        have hchain := lefScanSpan_chain ab.1 ab.2 (sortedEdgesOf (p :: rest)) 0 0
          hsorted (fun hne => absurd rfl hne)
        refine hchain.imp ?_
        intro u v h hov
        exact (not_lt.mpr h) hov.2.1
      · have hpchain := sorted_pairs_chain hys
        refine hpchain.imp ?_
        intro ab cd h u hu v hv hov
        have hu2 := lefScanSpan_shape ab.1 ab.2 (sortedEdgesOf (p :: rest)) 0 0
          hsorted (fun hne => absurd rfl hne) u hu
        have hv2 := lefScanSpan_shape cd.1 cd.2 (sortedEdgesOf (p :: rest)) 0 0
          hsorted (fun hne => absurd rfl hne) v hv
        have hcl : v.y1 < u.y2 := hov.2.2.2
        have hu2y : u.y2 = ab.2 := hu2.2.1
        have hv2y : v.y1 = cd.1 := hv2.1
        rw [hu2y, hv2y] at hcl
        exact absurd hcl (not_lt.mpr h)
    · intro r hr
      obtain ⟨ab, habm, hrs⟩ := List.mem_flatMap.mp hr
      obtain ⟨a1, b1⟩ := ab
      have hsh := lefScanSpan_shape a1 b1 (sortedEdgesOf (p :: rest)) 0 0
        hsorted (fun hne => absurd rfl hne) r hrs
      have hr1 : r.y1 = a1 := hsh.1
      have hr2 : r.y2 = b1 := hsh.2.1
      refine ⟨hsh.2.2.1, ?_⟩
      rw [hr1, hr2]
      exact (sorted_pair_lt hys habm).1
    · intro px py hgx hgy
      have hgen : ∀ e ∈ sortedEdgesOf (p :: rest), px ≠ e.1.x :=
        fun e he => (hgx e ((sortedEdgesOf_perm _).subset he)).1
      have hpynot : py ∉ spanYs (p :: rest) := by
        intro hmem
        obtain ⟨e, he, hy⟩ := (spanYs_mem _ _).mp hmem
        exact (hgy e he).1 hy
      constructor
      · rintro ⟨r, hr, hinr⟩
        obtain ⟨ab, habm, hrs⟩ := List.mem_flatMap.mp hr
        obtain ⟨a1, b1⟩ := ab
        have hsh := lefScanSpan_shape a1 b1 (sortedEdgesOf (p :: rest)) 0 0
          hsorted (fun hne => absurd rfl hne) r hrs
        have hr1 : r.y1 = a1 := hsh.1
        have hr2 : r.y2 = b1 := hsh.2.1
        have hinr2 : r.x1 ≤ px ∧ px ≤ r.x2 ∧ r.y1 ≤ py ∧ py ≤ r.y2 := hinr
        have ha1 : a1 ∈ spanYs (p :: rest) := (List.of_mem_zip habm).1
        have hb1 : b1 ∈ spanYs (p :: rest) :=
          List.mem_of_mem_tail (List.of_mem_zip habm).2
        have hy1 : a1 < py := by
          have hle : a1 ≤ py := by
            rw [← hr1]
            exact hinr2.2.2.1
          rcases lt_or_eq_of_le hle with h | h
          · exact h
          · rw [h] at ha1
            exact absurd ha1 hpynot
        have hy2 : py < b1 := by
          have hle : py ≤ b1 := by
            rw [← hr2]
            exact hinr2.2.2.2
          rcases lt_or_eq_of_le hle with h | h
          · exact h
          · rw [← h] at hb1
            exact absurd hb1 hpynot
        have htot : (0 : ℤ) + spanSum a1 b1 (sortedEdgesOf (p :: rest)) = 0 := by
          rw [zero_add, spanSum_sorted]
          exact spanSum_zero_of_pair (p :: rest) hman a1 b1 habm
        have hmm := lefScanSpan_mem_iff a1 b1 px (sortedEdgesOf (p :: rest)) 0 0
          hsorted hgen (fun hne => absurd rfl hne) htot
        obtain ⟨hne0, -⟩ := hmm.mp ⟨r, hrs, hinr2.1, hinr2.2.1⟩
        rw [zero_add, spanSumBefore_sorted] at hne0
        rw [windingAt_eq_before (p :: rest) hman a1 b1 px py habm hy1 hy2]
        exact hne0
      · intro hw
        have hex : ∃ e ∈ edgesOf (p :: rest), windTerm px py e ≠ 0 := by
          by_contra hno
          push_neg at hno
          refine hw ?_
          unfold windingAt
          refine List.sum_eq_zero fun t ht => ?_
          obtain ⟨e, he, hte⟩ := List.mem_map.mp ht
          rw [← hte]
          exact hno e he
        obtain ⟨e, he, hwt⟩ := hex
        have hcond : e.1.x = e.2.x ∧ e.1.x < px ∧
            ((e.1.y < py ∧ py < e.2.y) ∨ (e.2.y < py ∧ py < e.1.y)) := by
          by_contra hc
          refine hwt ?_
          unfold windTerm
          rw [if_neg hc]
        have h1m : e.1.y ∈ spanYs (p :: rest) := (spanYs_mem _ _).mpr ⟨e, he, rfl⟩
        have h2m : e.2.y ∈ spanYs (p :: rest) := by
          obtain ⟨e2, he2, hy⟩ := edge_snd_y_mem (p :: rest) e he
          rw [hy]
          exact (spanYs_mem _ _).mpr ⟨e2, he2, rfl⟩
        have hcover : ∃ q ∈ (spanYs (p :: rest)).zip (spanYs (p :: rest)).tail,
            q.1 < py ∧ py < q.2 := by
          rcases hcond.2.2 with ⟨hu, hv⟩ | ⟨hu, hv⟩
          · exact sorted_pair_cover hys h1m h2m hu hv hpynot
          · exact sorted_pair_cover hys h2m h1m hu hv hpynot
        obtain ⟨⟨a1, b1⟩, habm, hy1, hy2⟩ := hcover
        have htot : (0 : ℤ) + spanSum a1 b1 (sortedEdgesOf (p :: rest)) = 0 := by
          rw [zero_add, spanSum_sorted]
          exact spanSum_zero_of_pair (p :: rest) hman a1 b1 habm
        have hmm := lefScanSpan_mem_iff a1 b1 px (sortedEdgesOf (p :: rest)) 0 0
          hsorted hgen (fun hne => absurd rfl hne) htot
        have hb : (0 : ℤ) + spanSumBefore a1 b1 px (sortedEdgesOf (p :: rest)) ≠ 0 := by
          rw [zero_add, spanSumBefore_sorted,
            ← windingAt_eq_before (p :: rest) hman a1 b1 px py habm hy1 hy2]
          exact hw
        obtain ⟨r, hrs, hpx1, hpx2⟩ := hmm.mpr ⟨hb, fun h => absurd rfl h⟩
        have hsh := lefScanSpan_shape a1 b1 (sortedEdgesOf (p :: rest)) 0 0
          hsorted (fun hne => absurd rfl hne) r hrs
        have hr1 : r.y1 = a1 := hsh.1
        have hr2 : r.y2 = b1 := hsh.2.1
        refine ⟨r, List.mem_flatMap.mpr ⟨(a1, b1), habm, hrs⟩, hpx1, hpx2, ?_, ?_⟩
        · rw [hr1]
          exact le_of_lt hy1
        · rw [hr2]
          exact le_of_lt hy2

/-- Witness: the hypotheses of the decomposition theorem hold for the
10x10 square, and its covered-iff-wound equivalence holds at the interior
point (5, 5). -/
theorem C1_polygon_decomposition_witness :
    manhattan sqPts ∧ ¬ (edgesOf sqPts).length < 4 ∧
      genericX sqPts 5 ∧ genericY sqPts 5 ∧
      ((∃ r ∈ LefPolygonToRects sqPts, inRect 5 5 r) ↔ windingAt sqPts 5 5 ≠ 0) :=
  ⟨by decide, by decide, by decide, by decide,
   (C1_polygon_decomposition sqPts (by decide) (by decide)).2.2 5 5
     (by decide) (by decide)⟩

/-- C2: the placement transform applies the rotate-90 flag, then the
mirror-X flag, then the mirror-Y flag, in that fixed order, each about
the macro's own width/height, before translating by the placement
position; and a component with orientation FN (mirror-X) at (1000, 2000)
whose macro has width 500 maps the pin tap rectangle (0,0)–(200,200) to
(1300,2000)–(1500,2200). -/
theorem C2_placement_transform :
    (∀ (o : Orient) (px py w h ox oy : ℚ) (r : DSeg),
      defPlaceRect o px py w h ox oy r =
        specTranslate px py
          ((if o.my then specMirrorY h else id)
            ((if o.mx then specMirrorX w else id)
              ((if o.r90 then specRot90 w else id) (specUnOrigin ox oy r))))) ∧
    defOrientFlags DefOrient.FN = ⟨false, true, false⟩ ∧
    (∀ (h : ℚ) (l : ℤ),
      defPlaceRect (defOrientFlags DefOrient.FN) 1000 2000 500 h 0 0 ⟨0, 0, 200, 200, l⟩ =
        ⟨1300, 2000, 1500, 2200, l⟩) := by
  refine ⟨?_, rfl, ?_⟩
  · rintro ⟨r90, mx, my⟩ px py w h ox oy ⟨a, b, c, d, l⟩
    cases r90 <;> cases mx <;> cases my <;>
      simp only [defPlaceRect, specTranslate, specMirrorX, specMirrorY, specRot90,
        specUnOrigin, id_eq, if_true, if_false, Bool.false_eq_true, DSeg.mk.injEq] <;>
      exact ⟨by ring, by ring, by ring, by ring, by trivial⟩
  · intro h l
    simp only [defOrientFlags, defPlaceRect, DSeg.mk.injEq]
    norm_num

/-- C5 counterexample: on a layer with no route record, the keepout query
returns the minimum pitch minus half the configured path width (here 2),
not half the minimum track pitch (here 1), although width and spacing do
return half the minimum pitch. -/
theorem C5_counterexample :
    noRouteRecord lefStFallback 0 ∧
    LefGetRouteWidth lefStFallback 0 = 1 ∧
    LefGetRouteSpacing lefStFallback 0 = 1 ∧
    cMin lefStFallback.pitchX lefStFallback.pitchY / 2 = 1 ∧
    LefGetRouteKeepout lefStFallback 0 = 2 ∧ (2 : ℚ) ≠ 1 := by
  refine ⟨?_, ?_, ?_, ?_, ?_, by norm_num⟩ <;>
    first
    | (intro lefl h
       simp [LefFindLayerByNum, lefStFallback] at h)
    | norm_num [LefGetRouteWidth, LefGetRouteSpacing, LefGetRouteKeepout, LefFindLayerByNum,
        lefStFallback, cMin]

/-- C5 (amended): for a layer with no route-layer record, the width and
spacing queries fall back to half the minimum track pitch, while the
keepout query falls back to the minimum track pitch minus half the
configured path width. -/
theorem C5_fallback (st : LefState) (layer : ℤ) (h : noRouteRecord st layer) :
    LefGetRouteWidth st layer = cMin st.pitchX st.pitchY / 2 ∧
    LefGetRouteSpacing st layer = cMin st.pitchX st.pitchY / 2 ∧
    LefGetRouteKeepout st layer = cMin st.pitchX st.pitchY - st.pathWidth layer / 2 := by
  unfold LefGetRouteWidth LefGetRouteSpacing LefGetRouteKeepout
  cases hf : LefFindLayerByNum st layer with
  | none => exact ⟨rfl, rfl, rfl⟩
  | some lefl =>
    have hc := h lefl hf
    simp only [hc, if_neg hc]
    exact ⟨rfl, rfl, rfl⟩

/-- Witness for `C5_fallback` at the concrete empty technology state. -/
theorem C5_fallback_witness :
    noRouteRecord lefStFallback 0 ∧
    (LefGetRouteWidth lefStFallback 0 = cMin lefStFallback.pitchX lefStFallback.pitchY / 2 ∧
     LefGetRouteSpacing lefStFallback 0 = cMin lefStFallback.pitchX lefStFallback.pitchY / 2 ∧
     LefGetRouteKeepout lefStFallback 0 =
       cMin lefStFallback.pitchX lefStFallback.pitchY - lefStFallback.pathWidth 0 / 2) := by
  have hn : noRouteRecord lefStFallback 0 := by
    intro lefl h
    simp [LefFindLayerByNum, lefStFallback] at h
  exact ⟨hn, C5_fallback lefStFallback 0 hn⟩

/-- C9 counterexample: with `Verbose = 0` a diagnostic call carrying a
message increments neither running total, refuting "every diagnostic call
carrying a message increments exactly one of the two running totals". -/
theorem C9_counterexample :
    (LefError 0 LefErrType.LEF_ERROR true ⟨0, 0⟩).1 = ⟨0, 0⟩ ∧
    (LefError 0 LefErrType.LEF_ERROR true ⟨0, 0⟩).1.fatal +
      (LefError 0 LefErrType.LEF_ERROR true ⟨0, 0⟩).1.nonfatal ≠ 0 + 0 + 1 := by
  decide

/-- C9 (amended): when verbose output is enabled, every diagnostic call
carrying a message increments exactly one of the two running totals
(fatal for errors, non-fatal for warnings) and emits no report, and a
sentinel call with no message emits the cumulative counts and resets both
totals whenever some count is nonzero (and is a no-op when both are
already zero); with `Verbose = 0` every call is a no-op. -/
theorem C9_amended (verbose : ℕ) (hv : verbose ≠ 0) (ty : LefErrType) (st : ErrCounts) :
    ((LefError verbose ty true st).1.fatal + (LefError verbose ty true st).1.nonfatal
        = st.fatal + st.nonfatal + 1) ∧
    (LefError verbose ty true st).2 = none ∧
    ((ty = LefErrType.LEF_ERROR ∨ ty = LefErrType.DEF_ERROR) →
      (LefError verbose ty true st).1 = ⟨st.fatal + 1, st.nonfatal⟩) ∧
    ((ty = LefErrType.LEF_WARNING ∨ ty = LefErrType.DEF_WARNING) →
      (LefError verbose ty true st).1 = ⟨st.fatal, st.nonfatal + 1⟩) ∧
    (0 < st.fatal + st.nonfatal →
      LefError verbose ty false st = (⟨0, 0⟩, some (st.fatal, st.nonfatal))) ∧
    (st.fatal + st.nonfatal = 0 → LefError verbose ty false st = (st, none)) := by
  unfold LefError
  simp only [if_neg hv]
  cases ty <;> simp <;> omega

/-- Witness for `C9_amended` with verbose output enabled. -/
theorem C9_amended_witness :
    (1 : ℕ) ≠ 0 ∧
    ((LefError 1 LefErrType.LEF_ERROR true ⟨2, 3⟩).1.fatal +
        (LefError 1 LefErrType.LEF_ERROR true ⟨2, 3⟩).1.nonfatal = 2 + 3 + 1) ∧
    (LefError 1 LefErrType.LEF_ERROR true ⟨2, 3⟩).2 = none ∧
    ((LefErrType.LEF_ERROR = LefErrType.LEF_ERROR ∨
        LefErrType.LEF_ERROR = LefErrType.DEF_ERROR) →
      (LefError 1 LefErrType.LEF_ERROR true ⟨2, 3⟩).1 = ⟨2 + 1, 3⟩) ∧
    ((LefErrType.LEF_ERROR = LefErrType.LEF_WARNING ∨
        LefErrType.LEF_ERROR = LefErrType.DEF_WARNING) →
      (LefError 1 LefErrType.LEF_ERROR true ⟨2, 3⟩).1 = ⟨2, 3 + 1⟩) ∧
    (0 < 2 + 3 →
      LefError 1 LefErrType.LEF_ERROR false ⟨2, 3⟩ = (⟨0, 0⟩, some (2, 3))) ∧
    ((2 + 3 = 0) → LefError 1 LefErrType.LEF_ERROR false ⟨2, 3⟩ = (⟨2, 3⟩, none)) :=
  ⟨by decide, C9_amended 1 (by decide) LefErrType.LEF_ERROR ⟨2, 3⟩⟩

/-- C3: after the via selection heuristic runs, every base layer for which
at least one valid via was recorded during the three passes has all four
orientation slots populated. -/
theorem C3_via_slots (st : AssignState) (b : ℤ)
    (hb : 0 ≤ b ∧ b < MAX_LAYERS)
    (hrec : ¬ allNoneAt (lefRecordedVias st) b) :
    ((LefAssignLayerVias st).viaTables.xx b).isSome ∧
    ((LefAssignLayerVias st).viaTables.xy b).isSome ∧
    ((LefAssignLayerVias st).viaTables.yx b).isSome ∧
    ((LefAssignLayerVias st).viaTables.yy b).isSome := by
  unfold LefAssignLayerVias
  rcases hxx : (lefRecordedVias st).xx b with _ | sxx <;>
    rcases hxy : (lefRecordedVias st).xy b with _ | sxy <;>
      rcases hyx : (lefRecordedVias st).yx b with _ | syx <;>
        rcases hyy : (lefRecordedVias st).yy b with _ | syy <;>
          simp_all [allNoneAt, lefCopyBack, hb]

/-- Witness for `C3_via_slots`: a square via between routing layers 0 and
1 is recorded by pass 3 and all four slots for base layer 0 come out
populated. -/
theorem C3_via_slots_witness :
    ((0 : ℤ) ≤ 0 ∧ (0 : ℤ) < MAX_LAYERS) ∧
    ¬ allNoneAt (lefRecordedVias assignStExample) 0 ∧
    (((LefAssignLayerVias assignStExample).viaTables.xx 0).isSome ∧
     ((LefAssignLayerVias assignStExample).viaTables.xy 0).isSome ∧
     ((LefAssignLayerVias assignStExample).viaTables.yx 0).isSome ∧
     ((LefAssignLayerVias assignStExample).viaTables.yy 0).isSome) := by
  have hb : (0 : ℤ) ≤ 0 ∧ (0 : ℤ) < MAX_LAYERS := by decide
  have hrec : ¬ allNoneAt (lefRecordedVias assignStExample) 0 := by
    norm_num [lefRecordedVias, lefAssignPass0, lefMinMaxRoute, lefAssignPass, viaBaseTop,
      rectElong, viaSkip, pass0Via, pass1Update, pass2Update, pass3Update, fillT, updT,
      allNoneAt, assignStExample, m1rec, m2rec, via01rec, EPS, MAX_LAYERS, List.foldl,
      show ¬ LefClass.CLASS_VIA = LefClass.CLASS_ROUTE from by decide,
      show ¬ LefClass.CLASS_ROUTE = LefClass.CLASS_VIA from by decide]
    decide
  exact ⟨hb, hrec, C3_via_slots assignStExample 0 hb hrec⟩

/-- C7 counterexample: Scenario B (`TRACKS X 0 DO 10 STEP 5 LAYER M1`
after `UNITS 100`) stores a track pitch of 5 database units (1/20 micron)
and widens the global X bounds to [0, 1/2] microns = [0, 50] database
units — not the [0, 5000] database units (50 microns) the claim states;
the layer is marked vertical and 10 track positions are recorded. -/
theorem C7_counterexample :
    scenarioB.tracks 0 = some ⟨0, 10, 1 / 20⟩ ∧
    scenarioB.vert 0 = true ∧
    scenarioB.xlower = 0 ∧
    scenarioB.xupper = 1 / 2 ∧
    scenarioB.xupper ≠ 50 ∧
    scenarioB.xupper ≠ 5000 := by
  norm_num [scenarioB, defFinalBounds, defReadTracksStmt, defReadDieArea, trackSt0,
    dieareaB, TracksRec.mk.injEq]

/-- C7 (amended): the global bounds are seeded with the midpoint of the
die-area rectangle (the rectangle itself serves only as the final
fallback when no track statement widened an axis), and an in-range
X-orientation TRACKS statement records the track set scaled to microns,
marks its layer vertical, lowers the global X pitch to the scaled step
when that is smaller (or when no pitch was set), and widens the global X
bounds to cover [start/oscale, (start + step·count)/oscale]; Scenario B
therefore yields 10 tracks at pitch 1/20 micron (5 database units) and X
bounds [0, 1/2] micron ([0, 50] database units). -/
theorem C7_tracks (start step oscale : ℚ) (channels : ℤ) (curlayer : ℤ)
    (st : DefTrackState) (die : DSeg)
    (hlayer : 0 ≤ curlayer ∧ curlayer < st.numLayers) :
    ((defReadDieArea die st).xlower = (die.x1 + die.x2) / 2 ∧
     (defReadDieArea die st).xupper = (die.x1 + die.x2) / 2 ∧
     (defReadDieArea die st).ylower = (die.y1 + die.y2) / 2 ∧
     (defReadDieArea die st).yupper = (die.y1 + die.y2) / 2) ∧
    (st.xlower = st.xupper →
      (defFinalBounds die st).xlower = die.x1 ∧ (defFinalBounds die st).xupper = die.x2) ∧
    ((defReadTracksStmt 'x' start channels step curlayer oscale st).tracks curlayer
        = some ⟨start / oscale, channels, step / oscale⟩ ∧
     (defReadTracksStmt 'x' start channels step curlayer oscale st).vert curlayer = true ∧
     (defReadTracksStmt 'x' start channels step curlayer oscale st).pitchX
        = (if st.pitchX = 0 ∨ step / oscale < st.pitchX then step / oscale else st.pitchX) ∧
     (defReadTracksStmt 'x' start channels step curlayer oscale st).xlower
        = (if start / oscale < st.xlower then start / oscale else st.xlower) ∧
     (defReadTracksStmt 'x' start channels step curlayer oscale st).xupper
        = (if (start + step * (channels : ℚ)) / oscale > st.xupper
           then (start + step * (channels : ℚ)) / oscale else st.xupper) ∧
     (defReadTracksStmt 'x' start channels step curlayer oscale st).ylower = st.ylower ∧
     (defReadTracksStmt 'x' start channels step curlayer oscale st).yupper = st.yupper) := by
  have h0 : ¬ curlayer < 0 := by omega
  have h1 : ¬ st.numLayers ≤ curlayer := by omega
  refine ⟨⟨rfl, rfl, rfl, rfl⟩, ?_, ?_⟩
  · intro h
    unfold defFinalBounds
    rcases hy : decide (st.ylower = st.yupper) with _ | _ <;> simp_all
  · unfold defReadTracksStmt
    simp only [if_neg h0, if_neg h1, if_pos rfl]
    split_ifs <;> simp_all

/-- Witness for `C7_tracks` at the Scenario B values. -/
theorem C7_tracks_witness :
    ((0 : ℤ) ≤ 0 ∧ (0 : ℤ) < trackSt0.numLayers) ∧
    (defReadTracksStmt 'x' 0 10 5 0 100 trackSt0).tracks 0 = some ⟨0, 10, 1 / 20⟩ ∧
    (defReadTracksStmt 'x' 0 10 5 0 100 trackSt0).vert 0 = true := by
  have hl : (0 : ℤ) ≤ 0 ∧ (0 : ℤ) < trackSt0.numLayers := by
    constructor
    · decide
    · show (0 : ℤ) < 1
      decide
  have h := (C7_tracks 0 5 100 10 0 trackSt0 dieareaB hl).2.2
  refine ⟨hl, ?_, h.2.1⟩
  rw [h.1]
  norm_num [TracksRec.mk.injEq]

/-- C10: a pin whose declared layer is a routing layer becomes a one-node
gate whose single tap is a square centred on the placed position with
side equal to the layer's default route width, and whose recorded
width/height are at least the route width; a pin whose layer is missing
or at/above the routing-layer count creates no gate. -/
theorem C10_pins (pinname : String) (props : List PinProp) (oscale : ℚ) (st : PinState)
    (hin : 0 ≤ (pinParseOf props oscale).curlayer ∧
      (pinParseOf props oscale).curlayer < st.lef.numLayers) :
    (∃ g, (defReadPinStmt pinname props oscale st).nlgates = g :: st.nlgates ∧
      g.nodes = 1 ∧
      (∃ tap, g.taps0 = some tap ∧
        tap.x2 - tap.x1 = LefGetRouteWidth st.lef (pinParseOf props oscale).curlayer ∧
        tap.y2 - tap.y1 = LefGetRouteWidth st.lef (pinParseOf props oscale).curlayer ∧
        tap.x1 + tap.x2 = 2 * (pinParseOf props oscale).placedX ∧
        tap.y1 + tap.y2 = 2 * (pinParseOf props oscale).placedY ∧
        tap.layer = (pinParseOf props oscale).curlayer) ∧
      LefGetRouteWidth st.lef (pinParseOf props oscale).curlayer ≤ g.width ∧
      LefGetRouteWidth st.lef (pinParseOf props oscale).curlayer ≤ g.height) ∧
    (∀ (st2 : PinState) (props2 : List PinProp),
      ¬ (0 ≤ (pinParseOf props2 oscale).curlayer ∧
          (pinParseOf props2 oscale).curlayer < st2.lef.numLayers) →
      (defReadPinStmt pinname props2 oscale st2).nlgates = st2.nlgates) := by
  constructor
  · unfold defReadPinStmt
    rw [if_pos hin]
    refine ⟨_, rfl, rfl, ⟨_, rfl, by ring, by ring, by ring, by ring, rfl⟩, ?_, ?_⟩ <;>
      · dsimp only
        split <;> linarith
  · intro st2 props2 h
    unfold defReadPinStmt
    rw [if_neg h]

/-- Witness for `C10_pins`: a pin on layer 0 placed at (10, 20) over a
single-routing-layer technology. -/
theorem C10_pins_witness :
    (0 ≤ (pinParseOf [PinProp.layerProp 0 none,
            PinProp.placedProp 10 20 (some DefOrient.N)] 1).curlayer ∧
      (pinParseOf [PinProp.layerProp 0 none,
            PinProp.placedProp 10 20 (some DefOrient.N)] 1).curlayer <
        pinStExample.lef.numLayers) ∧
    (∃ g, (defReadPinStmt "P" [PinProp.layerProp 0 none,
            PinProp.placedProp 10 20 (some DefOrient.N)] 1 pinStExample).nlgates =
        g :: pinStExample.nlgates ∧
      g.nodes = 1 ∧
      (∃ tap, g.taps0 = some tap ∧
        tap.x2 - tap.x1 = LefGetRouteWidth pinStExample.lef 0 ∧
        tap.y2 - tap.y1 = LefGetRouteWidth pinStExample.lef 0 ∧
        tap.x1 + tap.x2 = 2 * (pinParseOf [PinProp.layerProp 0 none,
            PinProp.placedProp 10 20 (some DefOrient.N)] 1).placedX ∧
        tap.y1 + tap.y2 = 2 * (pinParseOf [PinProp.layerProp 0 none,
            PinProp.placedProp 10 20 (some DefOrient.N)] 1).placedY ∧
        tap.layer = 0) ∧
      LefGetRouteWidth pinStExample.lef 0 ≤ g.width ∧
      LefGetRouteWidth pinStExample.lef 0 ≤ g.height) := by
  have hin : 0 ≤ (pinParseOf [PinProp.layerProp 0 none,
          PinProp.placedProp 10 20 (some DefOrient.N)] 1).curlayer ∧
      (pinParseOf [PinProp.layerProp 0 none,
          PinProp.placedProp 10 20 (some DefOrient.N)] 1).curlayer <
        pinStExample.lef.numLayers := by
    constructor <;> decide
  have h := (C10_pins "P" [PinProp.layerProp 0 none,
      PinProp.placedProp 10 20 (some DefOrient.N)] 1 pinStExample hin).1
  exact ⟨hin, h⟩

/-- C4: in the aliased configuration the split branch of `LefRedefined`
serves (two list slots referencing one record named "M1"), the fresh
record receives its name from the uninitialised field of the freshly
allocated record instead of from the redefined name, so a lookup of "M1"
afterwards still returns the old record and never the record that holds
the new definition. -/
theorem C4_redefine_bug :
    aliasRun.1 = 1 ∧
    (aliasRun.2.recs 1).lefName = "" ∧
    lefFindLayerId aliasRun.2 "M1" = some 0 ∧
    lefFindLayerId aliasRun.2 "M1" ≠ some aliasRun.1 := by
  refine ⟨rfl, rfl, rfl, ?_⟩
  intro h
  rw [show aliasRun.1 = 1 from rfl, show lefFindLayerId aliasRun.2 "M1" = some 0 from rfl]
    at h
  exact absurd (Option.some.inj h) (by decide)

/-- C6: evaluating the net reader on a SPECIALNETS section defining only
the power net followed by a NETS section with two regular nets: the
regular nets receive the numbers 1 and 2 — the reserved `VDD_NET` and
`GND_NET` values — because the second `DefReadNets` call restarts the
counter at `Numnets` instead of above `MIN_NET_NUMBER`; the node-count
mirror, in contrast, holds. -/
theorem C6_netnum_bug :
    (netsRun2.nlnets.map fun n => (n.netname, n.netnum)) =
      [("VDD", VDD_NET), ("netA", VDD_NET), ("netB", GND_NET)] ∧
    ¬ (∀ net ∈ netsRun2.nlnets, net.netname ≠ "VDD" →
        VDD_NET < net.netnum ∧ GND_NET < net.netnum) ∧
    (∀ net ∈ netsRun2.nlnets, net.numnodes = (net.netnodes.length : ℤ) ∧
        ∀ nd ∈ net.netnodes, nd.numnodes = net.numnodes) := by
  refine ⟨by decide, by decide, by decide⟩


/-- Folding a state-step that preserves the net and active fields
preserves them over a whole list. -/
theorem routeFold_preserves (f : RouteParse → DSeg → RouteParse)
    (hf : ∀ a x, (f a x).net = a.net ∧ (f a x).active = a.active) :
    ∀ (l : List DSeg) (a : RouteParse),
      (l.foldl f a).net = a.net ∧ (l.foldl f a).active = a.active := by
  intro l
  induction l with
  | nil => intro a; exact ⟨rfl, rfl⟩
  | cons x xs ih =>
    intro a
    have h1 := hf a x
    have h2 := ih (f a x)
    simp only [List.foldl_cons]
    exact ⟨h2.1.trans h1.1, h2.2.trans h1.2⟩

/-- On a special net, one layer-rectangle iteration touches neither the
route list nor the active flag. -/
theorem viaLrStep_special (env : RouteEnv) (noob v : Bool) (px py : ℚ) (nl : ℤ)
    (a : RouteParse) (x : DSeg) :
    (viaLrStep env true noob v px py nl a x).net = a.net ∧
    (viaLrStep env true noob v px py nl a x).active = a.active := by
  unfold viaLrStep
  split_ifs <;> exact ⟨rfl, rfl⟩

/-- On a special net, the via-name branch touches neither the route list
nor the active flag. -/
theorem routeViaStep_special (env : RouteEnv) (noob : Bool) (nm : String) (s : RouteParse) :
    (routeViaStep env true noob nm s).net = s.net ∧
    (routeViaStep env true noob nm s).active = s.active := by
  unfold routeViaStep
  split
  · exact ⟨rfl, rfl⟩
  · rcases hfind : LefFindLayer env.lef nm with _ | lefl
    · simp only [hfind]
      exact ⟨trivial, trivial⟩
    · simp only [hfind]
      split
      · have hfold := routeFold_preserves
          (viaLrStep env true noob s.valid s.x s.y env.lef.numLayers)
          (fun a x => viaLrStep_special env noob s.valid s.x s.y env.lef.numLayers a x)
          lefl.via.lr
        split_ifs <;> simp_all
      · exact ⟨rfl, rfl⟩

/-- On a special net, the statement-start branch touches neither the
route list nor the active flag. -/
theorem routeNewStep_special (env : RouteEnv) (nm : String) (w : ℚ) (s : RouteParse) :
    (routeNewStep env true nm w s).net = s.net ∧
    (routeNewStep env true nm w s).active = s.active := by
  unfold routeNewStep
  dsimp only
  split_ifs <;> simp_all

/-- On a special net, the coordinate-pair branch touches neither the
route list nor the active flag. -/
theorem routeCoordStep_special (env : RouteEnv) (noob : Bool) (cx cy : Option ℚ)
    (s : RouteParse) :
    (routeCoordStep env true noob cx cy s).net = s.net ∧
    (routeCoordStep env true noob cx cy s).active = s.active := by
  have hfin : ∀ (lax lay : ℤ) (lx ly : ℚ) (t : RouteParse),
      (routeCoordStep.coordFinish env true noob lax lay lx ly t).net = t.net ∧
      (routeCoordStep.coordFinish env true noob lax lay lx ly t).active = t.active := by
    intro lax lay lx ly t
    unfold routeCoordStep.coordFinish
    split_ifs <;> simp_all
  unfold routeCoordStep
  rcases cx with _ | vx <;> rcases cy with _ | vy <;>
    dsimp only <;> split_ifs <;>
      first
      | exact ⟨rfl, rfl⟩
      | exact hfin _ _ _ _ _
      | simp_all [hfin]

/-- On a special net, the whole token loop touches neither the route list
nor the active flag. -/
theorem defAddRoutesLoop_special (env : RouteEnv) (noob : Bool) :
    ∀ (toks : List RouteTok) (s : RouteParse),
      (defAddRoutesLoop env true noob toks s).net = s.net ∧
      (defAddRoutesLoop env true noob toks s).active = s.active := by
  intro toks
  induction toks with
  | nil => intro s; exact ⟨rfl, rfl⟩
  | cons t rest ih =>
    intro s
    cases t with
    | stop => exact ⟨rfl, rfl⟩
    | newRec nm w =>
      have h1 := routeNewStep_special env nm w s
      have h2 := ih (routeNewStep env true nm w s)
      exact ⟨h2.1.trans h1.1, h2.2.trans h1.2⟩
    | viaRef nm =>
      have h1 := routeViaStep_special env noob nm s
      have h2 := ih (routeViaStep env true noob nm s)
      exact ⟨h2.1.trans h1.1, h2.2.trans h1.2⟩
    | coord cx cy =>
      have h1 := routeCoordStep_special env noob cx cy s
      have h2 := ih (routeCoordStep env true noob cx cy s)
      exact ⟨h2.1.trans h1.1, h2.2.trans h1.2⟩

/-- A special-net call of `DefAddRoutes` leaves the net's route list
untouched. -/
theorem defAddRoutes_special (env : RouteEnv) (net : RNet) (toks : List RouteTok) :
    (DefAddRoutes env true net toks).net.routes = net.routes := by
  unfold DefAddRoutes
  have h := defAddRoutesLoop_special env (noObstruct true net) toks (routeParse0 net)
  unfold defRoutesStubCheck
  rw [h.2]
  rw [if_neg (by simp [routeParse0])]
  exact congrArg (fun n => n.routes) h.1


/-- C8 counterexample: a regular net's route statement whose single wire
is exactly one track long, with coordinates snapping cleanly onto the
grid, is NOT deleted — the stub check fires only on routes flagged for
re-check. -/
theorem C8_counterexample :
    (DefAddRoutes envC8 false netC8 toksC8).net.routes =
      [⟨5, [⟨SegType.wire, 0, 1, 0, 0, 0⟩], false⟩] ∧
    (DefAddRoutes envC8 false netC8 toksC8).net.routes ≠ [] := by
  have h : (DefAddRoutes envC8 false netC8 toksC8).net.routes =
      [⟨5, [⟨SegType.wire, 0, 1, 0, 0, 0⟩], false⟩] := by
    norm_num [DefAddRoutes, defAddRoutesLoop, routeNewStep, routeCoordStep,
      routeCoordStep.coordFinish, routeViaStep, defRoutesStubCheck, removeTopRoute,
      pushSeg, ensureRoute, flagCheck, snapGrid, ctrunc, EPS, noObstruct,
      LefFindLayerNum, LefFindLayer, LefGetRouteWidth, LefFindLayerByNum, cMin,
      envC8, m1rec, netC8, toksC8, routeParse0]
  refine ⟨h, ?_⟩
  rw [h]
  simp

/-- C8 (amended): a special-net route statement (power/ground included)
never adds or deletes route records, and after a regular net's route
statement the most recently built route is deleted exactly when it is
flagged for re-check and consists of one segment exactly one track long. -/
theorem C8_stub_removal (env : RouteEnv) (net : RNet) (toks : List RouteTok) :
    (DefAddRoutes env true net toks).net.routes = net.routes ∧
    (∀ r rest,
      (defAddRoutesLoop env false (noObstruct false net) toks (routeParse0 net)).net.routes
          = r :: rest →
      (defAddRoutesLoop env false (noObstruct false net) toks (routeParse0 net)).active
          = true →
      ((r.rtCheck = true ∧ (∃ seg, r.segments = [seg] ∧
          ((|seg.x1 - seg.x2| = 0 ∧ |seg.y1 - seg.y2| = 1) ∨
           (|seg.x1 - seg.x2| = 1 ∧ |seg.y1 - seg.y2| = 0)))) →
        (DefAddRoutes env false net toks).net.routes = rest) ∧
      (¬ (r.rtCheck = true ∧ (∃ seg, r.segments = [seg] ∧
          ((|seg.x1 - seg.x2| = 0 ∧ |seg.y1 - seg.y2| = 1) ∨
           (|seg.x1 - seg.x2| = 1 ∧ |seg.y1 - seg.y2| = 0)))) →
        (DefAddRoutes env false net toks).net.routes = r :: rest)) := by
  refine ⟨defAddRoutes_special env net toks, ?_⟩
  intro r rest hr hact
  unfold DefAddRoutes defRoutesStubCheck
  rw [hact, if_pos rfl, hr]
  dsimp only
  constructor
  · rintro ⟨hflag, seg, hseg, hlen⟩
    rw [hflag, if_pos rfl, hseg]
    dsimp only
    rw [if_pos hlen]
    simp [removeTopRoute, hr]
  · intro hneg
    rcases hflag : r.rtCheck with _ | _
    · simp [hflag, hr]
    · rw [if_pos rfl]
      rcases hsegs : r.segments with _ | ⟨seg, _ | ⟨seg2, tl⟩⟩
      · simp [hsegs, hr]
      · have hlen : ¬ ((|seg.x1 - seg.x2| = 0 ∧ |seg.y1 - seg.y2| = 1) ∨
            (|seg.x1 - seg.x2| = 1 ∧ |seg.y1 - seg.y2| = 0)) := by
          intro hl
          exact hneg ⟨hflag, seg, hsegs, hl⟩
        dsimp only
        rw [if_neg hlen]
        exact hr
      · simp [hsegs, hr]

/-- Witness for `C8_stub_removal`: a regular-net route whose first point
snaps with error 2/5 of a pitch (flagging the route) and whose single
wire is one track long is deleted; the special-net half is applied to the
same statement on the power net. -/
theorem C8_stub_removal_witness :
    (defAddRoutesLoop envC8 false (noObstruct false netC8) toksC8flag
        (routeParse0 netC8)).net.routes =
      (⟨5, [⟨SegType.wire, 0, 1, 0, 0, 0⟩], true⟩ : RouteRec) :: [] ∧
    (defAddRoutesLoop envC8 false (noObstruct false netC8) toksC8flag
        (routeParse0 netC8)).active = true ∧
    (DefAddRoutes envC8 false netC8 toksC8flag).net.routes = [] ∧
    (DefAddRoutes envC8 true netC8 toksC8flag).net.routes = netC8.routes := by
  have hr : (defAddRoutesLoop envC8 false (noObstruct false netC8) toksC8flag
      (routeParse0 netC8)).net.routes =
      (⟨5, [⟨SegType.wire, 0, 1, 0, 0, 0⟩], true⟩ : RouteRec) :: [] := by
    norm_num [defAddRoutesLoop, routeNewStep, routeCoordStep,
      routeCoordStep.coordFinish, routeViaStep, pushSeg, ensureRoute, flagCheck,
      snapGrid, ctrunc, EPS, noObstruct, LefFindLayerNum, LefFindLayer,
      LefGetRouteWidth, LefFindLayerByNum, cMin, envC8, m1rec, netC8, toksC8flag,
      routeParse0, abs_of_nonneg (show (0 : ℚ) ≤ 2 / 5 by norm_num)]
  have hact : (defAddRoutesLoop envC8 false (noObstruct false netC8) toksC8flag
      (routeParse0 netC8)).active = true := by
    norm_num [defAddRoutesLoop, routeNewStep, routeCoordStep,
      routeCoordStep.coordFinish, routeViaStep, pushSeg, ensureRoute, flagCheck,
      snapGrid, ctrunc, EPS, noObstruct, LefFindLayerNum, LefFindLayer,
      LefGetRouteWidth, LefFindLayerByNum, cMin, envC8, m1rec, netC8, toksC8flag,
      routeParse0, abs_of_nonneg (show (0 : ℚ) ≤ 2 / 5 by norm_num)]
  have h := C8_stub_removal envC8 netC8 toksC8flag
  refine ⟨hr, hact, ?_, h.1⟩
  exact (h.2 _ [] hr hact).1 ⟨rfl, ⟨SegType.wire, 0, 1, 0, 0, 0⟩, rfl, by norm_num⟩

end QRouter
